import Mathlib

/-!
# UART_Common: framing primitives and the application-state codec

A shallow embedding of `lib_common/api/UART_Common.hpp`.

* `std::string` is a list of characters (`Str`), `std::vector<std::string>` a list of `Str`.
* `uint32_t` values are natural numbers reduced `% 2 ^ 32` wherever the C++ arithmetic wraps.
* A `float` is its IEEE-754 binary32 bit pattern (`Float32`); the arithmetic on it is exact
  integer arithmetic on the magnitude counted in units of `2 ^ (-149)`.
* A thrown C++ exception is an `Except.error` carrying the kind of fault; `ExtractAppState`
  writes through a reference, so its model returns the caller's record as the call leaves it
  together with the returned value or the exception (`Outcome`).
* The standard-library conversions the code calls (`std::to_string`, `std::stoul`, `std::stoi`,
  `std::stof`) are defined here from their C/C++ library semantics in the "C" locale, the locale
  a program runs in unless it calls `setlocale`, which this code does not.
* What the language leaves to the implementation is a parameter (`Platform`): the width of
  `unsigned long`, the result of converting an unrepresentable float to `uint32_t`, and whether
  `strtof` reports underflow. General statements hold for every `Platform`.
-/

namespace UART_Common

/-- A `std::string`, as its sequence of characters. -/
abbrev Str := List Char

/-! ## Framing primitives -/

/-- The `for` loop of `ConcatMessage`: `n` iterations remain, `i` is the loop index and
`result` the string built so far. -/
def ConcatMessage.loop (msg : List Str) : Nat → Nat → Str → Str
  | 0, _, result => result
  | n + 1, i, result =>
    let result := result ++ msg.getD i []
    let result := if i ≠ msg.length - 1 then result ++ [','] else result
    ConcatMessage.loop msg n (i + 1) result

/-- `UART_Common::ConcatMessage`: the loop runs for `i = 0 .. msg.size() - 1`. -/
def ConcatMessage (msg : List Str) : Str :=
  ConcatMessage.loop msg msg.length 0 []

/-- Scan of `std::string::find`: `i` is the index of the head of the list being scanned. -/
def findFrom (c : Char) : Str → Nat → Option Nat
  | [], _ => none
  | x :: xs, i => if x = c then some i else findFrom c xs (i + 1)

/-- `std::string::find(c, start)`; `none` stands for `std::string::npos`. -/
def find (input : Str) (c : Char) (start : Nat) : Option Nat :=
  findFrom c (input.drop start) start

/-- `std::string::substr(pos, len)`. -/
def substr (input : Str) (pos len : Nat) : Str :=
  (input.drop pos).take len

/-- The `while` loop of `SplitMessage` together with the final `push_back`. The first argument
bounds the number of iterations; `none` is returned only if the bound is exhausted while the
loop condition still holds. -/
def SplitMessage.loop (input : Str) : Nat → List Str → Nat → Option Nat → Option (List Str)
  | _, tokens, start, none => some (tokens ++ [input.drop start])
  | 0, _, _, some _ => none
  | fuel + 1, tokens, start, some e =>
    SplitMessage.loop input fuel (tokens ++ [substr input start (e - start)]) (e + 1)
      (find input ',' (e + 1))

/-- `UART_Common::SplitMessage`. Every iteration moves `start` past one more delimiter, so
`input.length` iterations always suffice (`SplitMessage_loop_eq`). -/
def SplitMessage (input : Str) : List Str :=
  (SplitMessage.loop input input.length [] 0 (find input ',' 0)).getD []

/-- Reference description of joining: tokens in order, one comma between neighbours. -/
def joinSpec : List Str → Str
  | [] => []
  | [t] => t
  | t :: u :: rest => t ++ ',' :: joinSpec (u :: rest)

/-- Reference description of splitting: cut at every comma. -/
def splitSpec : Str → List Str
  | [] => [[]]
  | c :: cs =>
    if c = ',' then [] :: splitSpec cs
    else match splitSpec cs with
      | [] => [[c]]
      | t :: ts => (c :: t) :: ts

/-! ## Standard-library conversions -/

/-- The exceptions thrown by `std::stoul`, `std::stoi` and `std::stof`. -/
inductive Fault where
  | invalid_argument
  | out_of_range
deriving DecidableEq, Repr

/-- An IEEE-754 binary32 value (`float`), as its 32-bit pattern. -/
structure Float32 where
  bits : Nat
deriving DecidableEq, Repr

/-- What the C++ standard leaves to the implementation and the code relies on. -/
structure Platform where
  /-- Whether `unsigned long` has 64 bits (LP64 hosts); otherwise it has 32 bits (ILP32). -/
  ulong64 : Bool
  /-- The value produced by `static_cast<uint32_t>` on a float whose truncation is not
  representable (undefined by the standard; the argument is the bit pattern). -/
  f2u_unrepresentable : Nat → Nat
  /-- Whether `strtof` reports `ERANGE` for a result that underflows. -/
  underflow_erange : Bool

/-- `ULONG_MAX`. -/
def Platform.ULONG_MAX (P : Platform) : Nat :=
  if P.ulong64 then 2 ^ 64 - 1 else 2 ^ 32 - 1

/-- `isspace` in the "C" locale: space, `\t`, `\n`, `\v`, `\f`, `\r`. -/
def isspace (c : Char) : Bool :=
  c.toNat = 32 || (9 ≤ c.toNat && c.toNat ≤ 13)

/-- The character of a decimal digit. -/
def digitChar (d : Nat) : Char :=
  match d with
  | 0 => '0' | 1 => '1' | 2 => '2' | 3 => '3' | 4 => '4'
  | 5 => '5' | 6 => '6' | 7 => '7' | 8 => '8' | _ => '9'

/-- The value of a decimal digit character. -/
def digitVal? (c : Char) : Option Nat :=
  if 48 ≤ c.toNat ∧ c.toNat ≤ 57 then some (c.toNat - 48) else none

/-- The value of a hexadecimal digit character. -/
def hexVal? (c : Char) : Option Nat :=
  if 48 ≤ c.toNat ∧ c.toNat ≤ 57 then some (c.toNat - 48)
  else if 97 ≤ c.toNat ∧ c.toNat ≤ 102 then some (c.toNat - 87)
  else if 65 ≤ c.toNat ∧ c.toNat ≤ 70 then some (c.toNat - 55)
  else none

/-- Decimal digits of `n`, most significant first, prepended to `acc`. -/
def natDigits.go : Nat → Nat → List Nat → List Nat
  | 0, _, acc => acc
  | fuel + 1, n, acc =>
    if n < 10 then n :: acc else natDigits.go fuel (n / 10) (n % 10 :: acc)

/-- Decimal digits of `n`, most significant first, no leading zero except for `0` itself. -/
def natDigits (n : Nat) : List Nat :=
  natDigits.go (n + 1) n []

/-- `std::to_string` on an unsigned integer. -/
def to_string_unsigned (n : Nat) : Str :=
  (natDigits n).map digitChar

/-- `std::to_string(int)`. -/
def to_string_int (v : Int) : Str :=
  if v < 0 then '-' :: to_string_unsigned v.natAbs else to_string_unsigned v.natAbs

/-- Leading white space is skipped by the `strto*` family. -/
def skipSpace : Str → Str
  | [] => []
  | c :: cs => if isspace c then skipSpace cs else c :: cs

/-- An optional sign; the flag tells whether it was `-`. -/
def takeSign : Str → Bool × Str
  | [] => (false, [])
  | c :: cs => if c = '-' then (true, cs) else if c = '+' then (false, cs) else (false, c :: cs)

/-- The longest prefix of digits recognised by `val?`, as digit values, and what follows it. -/
def spanDigits (val? : Char → Option Nat) : Str → List Nat × Str
  | [] => ([], [])
  | c :: cs =>
    match val? c with
    | some d => ((d :: (spanDigits val? cs).1), (spanDigits val? cs).2)
    | none => ([], c :: cs)

/-- The number written by a digit sequence in base `b`. -/
def ofDigits (b : Nat) (ds : List Nat) : Nat :=
  ds.foldl (fun a d => a * b + d) 0

/-- `std::stoul(str)` (base 10): `strtoul` skips white space, takes an optional sign and the
longest run of decimal digits; no digit is `invalid_argument`, a magnitude above `ULONG_MAX` is
`out_of_range`, and a `-` negates in `unsigned long` arithmetic. Trailing characters are ignored. -/
def stoul (P : Platform) (str : Str) : Except Fault Nat :=
  let (neg, rest) := takeSign (skipSpace str)
  let ds := (spanDigits digitVal? rest).1
  if ds = [] then .error .invalid_argument
  else
    let v := ofDigits 10 ds
    if v > P.ULONG_MAX then .error .out_of_range
    else .ok (if neg then (P.ULONG_MAX + 1 - v) % (P.ULONG_MAX + 1) else v)

/-- `std::stoi(str)` (base 10): as `strtol`, then `out_of_range` unless the value is an `int`. -/
def stoi (str : Str) : Except Fault Int :=
  let (neg, rest) := takeSign (skipSpace str)
  let ds := (spanDigits digitVal? rest).1
  if ds = [] then .error .invalid_argument
  else
    let v : Int := if neg then - (ofDigits 10 ds : Int) else (ofDigits 10 ds : Int)
    if v < -(2 : Int) ^ 31 ∨ v > (2 : Int) ^ 31 - 1 then .error .out_of_range
    else .ok v

/-! ## binary32 values -/

/-- Sign bit. -/
def Float32.sign (x : Float32) : Bool := x.bits / 2 ^ 31 % 2 = 1

/-- Biased exponent field (8 bits). -/
def Float32.expo (x : Float32) : Nat := x.bits / 2 ^ 23 % 256

/-- Fraction field (23 bits). -/
def Float32.frac (x : Float32) : Nat := x.bits % 2 ^ 23

/-- A NaN: exponent field all ones, fraction non-zero. -/
def Float32.isNaN (x : Float32) : Bool := x.expo = 255 && x.frac ≠ 0

/-- An infinity: exponent field all ones, fraction zero. -/
def Float32.isInf (x : Float32) : Bool := x.expo = 255 && x.frac = 0

/-- The magnitude of a finite value, counted in units of `2 ^ (-149)` (the smallest subnormal):
`|x| = x.mag / 2 ^ 149`. -/
def Float32.mag (x : Float32) : Nat :=
  if x.expo = 0 then x.frac else (2 ^ 23 + x.frac) * 2 ^ (x.expo - 1)

/-- Halving count of `ilog2`; the first argument bounds the number of halvings. -/
def ilog2.go : Nat → Nat → Nat
  | 0, _ => 0
  | fuel + 1, n => if n < 2 then 0 else ilog2.go fuel (n / 2) + 1

/-- The position of the leading one bit: `2 ^ ilog2 n ≤ n < 2 ^ (ilog2 n + 1)` for `0 < n`. -/
def ilog2 (n : Nat) : Nat := ilog2.go n n

/-- Exponent and fraction fields of the finite value of magnitude `n / 2 ^ 149`, for `n`
representable (`n < 2 ^ 23`, or 24 significant bits and `n < 2 ^ 128 * 2 ^ 149`). -/
def encodeMag (n : Nat) : Nat :=
  if n < 2 ^ 23 then n
  else (ilog2 n - 23 + 1) * 2 ^ 23 + (n / 2 ^ (ilog2 n - 23) - 2 ^ 23)

/-- The bit pattern with the given sign and the given exponent and fraction fields. -/
def withSign (neg : Bool) (fields : Nat) : Float32 :=
  ⟨(if neg then 2 ^ 31 else 0) + fields⟩

/-- Infinity, `0x7f800000` with the sign bit. -/
def Float32.infinity (neg : Bool) : Float32 := withSign neg (255 * 2 ^ 23)

/-- The quiet NaN `0x7fc00000` with the sign bit. -/
def Float32.quietNaN (neg : Bool) : Float32 := withSign neg (255 * 2 ^ 23 + 2 ^ 22)

/-- Rounding of `num / den` to the nearest integer, ties to even. -/
def roundHalfEven (num den : Nat) : Nat :=
  let q := num / den
  let r := num % den
  if 2 * r < den then q
  else if den < 2 * r then q + 1
  else if q % 2 = 0 then q else q + 1

/-- Six decimal digits, with leading zeros. -/
def pad6 (n : Nat) : Str :=
  [digitChar (n / 100000 % 10), digitChar (n / 10000 % 10), digitChar (n / 1000 % 10),
   digitChar (n / 100 % 10), digitChar (n / 10 % 10), digitChar (n % 10)]

/-- `std::to_string(float)`, which is `printf("%f")`: the exact value rounded (to nearest, ties
to even) to six decimals; `inf` and `nan` for the special values, a `-` when the sign bit is
set. -/
def to_string_float (x : Float32) : Str :=
  let s : Str := if x.sign then ['-'] else []
  if x.isNaN then s ++ ['n', 'a', 'n']
  else if x.isInf then s ++ ['i', 'n', 'f']
  else
    let r := roundHalfEven (x.mag * 10 ^ 6) (2 ^ 149)
    s ++ to_string_unsigned (r / 10 ^ 6) ++ '.' :: pad6 (r % 10 ^ 6)

/-- `kFloatToIntConvScaling`. -/
def kFloatToIntConvScaling : Nat := 65536

/-- The float product `x * kFloatToIntConvScaling`. Scaling by a power of two is exact; a
magnitude of `2 ^ 128` or more overflows to infinity. -/
def fmulScaling (x : Float32) : Float32 :=
  if x.isNaN || x.isInf then x
  else if x.mag * kFloatToIntConvScaling < 2 ^ 128 * 2 ^ 149 then
    withSign x.sign (encodeMag (x.mag * kFloatToIntConvScaling))
  else Float32.infinity x.sign

/-- `static_cast<uint32_t>(y)` for a float `y`: truncation toward zero when the truncated value
is in `0 .. 2 ^ 32 - 1`; otherwise whatever the platform yields, as a `uint32_t`. -/
def f2u (P : Platform) (y : Float32) : Nat :=
  if y.isNaN || y.isInf then P.f2u_unrepresentable y.bits % 2 ^ 32
  else
    let t := y.mag / 2 ^ 149
    if t = 0 then 0
    else if y.sign || 2 ^ 32 ≤ t then P.f2u_unrepresentable y.bits % 2 ^ 32
    else t

/-- What a floating literal denotes before rounding. -/
inductive FloatLit where
  | inf
  | nan
  | ratio (num den : Nat)
deriving DecidableEq, Repr

/-- Case-insensitive test that `s` starts with the (lower-case) pattern. -/
def startsWithCI (pat s : Str) : Bool :=
  (s.take pat.length).map Char.toLower = pat

/-- The digits after a decimal point, if the input continues with one. -/
def afterPoint (val? : Char → Option Nat) : Str → List Nat × Str
  | [] => ([], [])
  | c :: cs => if c = '.' then spanDigits val? cs else ([], c :: cs)

/-- An exponent part introduced by `marker` (lower case): optional sign and at least one decimal
digit; `0` when there is none. -/
def takeExponent (marker : Char) : Str → Int
  | [] => 0
  | c :: cs =>
    if c.toLower = marker then
      let ds := (spanDigits digitVal? (takeSign cs).2).1
      if ds = [] then 0
      else if (takeSign cs).1 then - (ofDigits 10 ds : Int) else (ofDigits 10 ds : Int)
    else 0

/-- The fraction `m * b ^ e`. -/
def scaleLit (m b : Nat) (e : Int) : FloatLit :=
  if 0 ≤ e then .ratio (m * b ^ e.toNat) 1 else .ratio m (b ^ (-e).toNat)

/-- A decimal floating literal: digits with an optional point, at least one digit, and an
optional exponent. -/
def decimalLit (s : Str) : Option FloatLit :=
  let ip := spanDigits digitVal? s
  let fp := afterPoint digitVal? ip.2
  if ip.1 ++ fp.1 = [] then none
  else some (scaleLit (ofDigits 10 (ip.1 ++ fp.1)) 10 (takeExponent 'e' fp.2 - fp.1.length))

/-- A hexadecimal floating literal after its `0x`: hexadecimal digits with an optional point, at
least one digit, and an optional binary exponent. -/
def hexLit (s : Str) : Option FloatLit :=
  let ip := spanDigits hexVal? s
  let fp := afterPoint hexVal? ip.2
  if ip.1 ++ fp.1 = [] then none
  else some (scaleLit (ofDigits 16 (ip.1 ++ fp.1)) 2 (takeExponent 'p' fp.2 - 4 * fp.1.length))

/-- The subject sequence of `strtof` after white space and sign. -/
def floatLit (s : Str) : Option FloatLit :=
  if startsWithCI ['i', 'n', 'f'] s then some .inf
  else if startsWithCI ['n', 'a', 'n'] s then some .nan
  else if startsWithCI ['0', 'x'] s then
    match hexLit (s.drop 2) with
    | some l => some l
    | none => decimalLit s
  else decimalLit s

/-- Rounding of the positive fraction `num / den` to binary32 (to nearest, ties to even), as
`strtof` does; the result is the magnitude in units of `2 ^ (-149)`. -/
def roundMag (num den : Nat) : Nat :=
  let q := num * 2 ^ 149 / den
  if q < 2 ^ 24 then roundHalfEven (num * 2 ^ 149) den
  else roundHalfEven (num * 2 ^ 149) (den * 2 ^ (ilog2 q - 23)) * 2 ^ (ilog2 q - 23)

/-- `std::stof(str)`: `strtof`, with `invalid_argument` when there is no conversion and
`out_of_range` when `strtof` reports `ERANGE` (overflow, or an inexact result below the normal
range where the platform reports it). -/
def stof (P : Platform) (str : Str) : Except Fault Float32 :=
  let (neg, rest) := takeSign (skipSpace str)
  match floatLit rest with
  | none => .error .invalid_argument
  | some .inf => .ok (Float32.infinity neg)
  | some .nan => .ok (Float32.quietNaN neg)
  | some (.ratio num den) =>
    let n := roundMag num den
    if 2 ^ 128 * 2 ^ 149 ≤ n then .error .out_of_range
    else if P.underflow_erange && n < 2 ^ 23 && num * 2 ^ 149 % den ≠ 0 then .error .out_of_range
    else .ok (withSign neg (encodeMag n))

/-! ## The application-state record and its codec -/

/-- Modelled from the spec: `ts_app_state` of `common_defs.h`, which is not part of the sources.
The spec (section 3) gives the field order and types: an unsigned iteration counter (read back
through `static_cast<uint32_t>`), two `float`s, an integer-backed enumeration, two 8-bit unsigned
indices and two more integer-backed enumerations. An enumeration field holds the `int` it is
cast from and to. -/
structure ts_app_state where
  n_iterations : Nat
  last_error : Float32
  exploration_range : Float32
  app_id : Int
  current_dataset : Nat
  current_model : Nat
  current_nn_mode : Int
  current_expl_mode : Int
deriving DecidableEq, Repr

/-- Every field is within the range of its type. -/
def ts_app_state.Valid (r : ts_app_state) : Prop :=
  r.n_iterations < 2 ^ 32 ∧ r.last_error.bits < 2 ^ 32 ∧ r.exploration_range.bits < 2 ^ 32 ∧
  (-(2 : Int) ^ 31 ≤ r.app_id ∧ r.app_id < (2 : Int) ^ 31) ∧
  r.current_dataset < 256 ∧ r.current_model < 256 ∧
  (-(2 : Int) ^ 31 ≤ r.current_nn_mode ∧ r.current_nn_mode < (2 : Int) ^ 31) ∧
  (-(2 : Int) ^ 31 ≤ r.current_expl_mode ∧ r.current_expl_mode < (2 : Int) ^ 31)

instance (r : ts_app_state) : Decidable r.Valid := by
  unfold ts_app_state.Valid
  infer_instance

/-- Conversion of an `int` (an enumeration value) to `uint32_t`. -/
def intToU32 (v : Int) : Nat := (v % (2 : Int) ^ 32).toNat

/-- `static_cast<uint8_t>` of an `int`. -/
def intToU8 (v : Int) : Nat := (v % 256).toNat

/-- `checksum += x` on a `uint32_t`. -/
def addU32 (checksum x : Nat) : Nat := (checksum + x) % 2 ^ 32

/-- `UART_Common::FormatAppState`. -/
def FormatAppState (P : Platform) (app_state : ts_app_state) : Str :=
  let checksum := 0
  let v0 := to_string_unsigned app_state.n_iterations
  let checksum := addU32 checksum app_state.n_iterations
  let v1 := to_string_float app_state.last_error
  let checksum := addU32 checksum (f2u P (fmulScaling app_state.last_error))
  let v2 := to_string_float app_state.exploration_range
  let checksum := addU32 checksum (f2u P (fmulScaling app_state.exploration_range))
  let v3 := to_string_int app_state.app_id
  let checksum := addU32 checksum (intToU32 app_state.app_id)
  let v4 := to_string_int app_state.current_dataset
  let checksum := addU32 checksum app_state.current_dataset
  let v5 := to_string_int app_state.current_model
  let checksum := addU32 checksum app_state.current_model
  let v6 := to_string_int app_state.current_nn_mode
  let checksum := addU32 checksum (intToU32 app_state.current_nn_mode)
  let v7 := to_string_int app_state.current_expl_mode
  let checksum := addU32 checksum (intToU32 app_state.current_expl_mode)
  let v8 := to_string_unsigned checksum
  ConcatMessage [v0, v1, v2, v3, v4, v5, v6, v7, v8]

/-- The checksum recomputation and comparison at the end of `ExtractAppState`. -/
def checksumMatches (P : Platform) (app_state : ts_app_state) (provided_checksum : Nat) : Bool :=
  let computed_checksum := 0
  let computed_checksum := addU32 computed_checksum app_state.n_iterations
  let computed_checksum := addU32 computed_checksum (f2u P (fmulScaling app_state.last_error))
  let computed_checksum :=
    addU32 computed_checksum (f2u P (fmulScaling app_state.exploration_range))
  let computed_checksum := addU32 computed_checksum (intToU32 app_state.app_id)
  let computed_checksum := addU32 computed_checksum app_state.current_dataset
  let computed_checksum := addU32 computed_checksum app_state.current_model
  let computed_checksum := addU32 computed_checksum (intToU32 app_state.current_nn_mode)
  let computed_checksum := addU32 computed_checksum (intToU32 app_state.current_expl_mode)
  computed_checksum = provided_checksum

/-- Equality of conversion results is decidable. -/
instance instDecidableEqExcept {ε α : Type} [DecidableEq ε] [DecidableEq α] :
    DecidableEq (Except ε α) := fun a b =>
  match a, b with
  | .ok x, .ok y => if h : x = y then isTrue (by rw [h]) else isFalse (fun h2 => h (by cases h2; rfl))
  | .error x, .error y =>
    if h : x = y then isTrue (by rw [h]) else isFalse (fun h2 => h (by cases h2; rfl))
  | .ok _, .error _ => isFalse (fun h => by cases h)
  | .error _, .ok _ => isFalse (fun h => by cases h)

/-- What a call of `ExtractAppState` leaves behind: the caller's record as it stands when the
call ends, and either the returned `bool` or the exception that ended the call. -/
structure Outcome where
  app_state : ts_app_state
  result : Except Fault Bool
deriving DecidableEq, Repr

/-- `UART_Common::ExtractAppState(const std::vector<std::string>&, ts_app_state&)`. The record
is assigned field by field, so an exception leaves the fields assigned before it. -/
def ExtractAppStateFields (P : Platform) (fields : List Str) (app_state : ts_app_state) :
    Outcome :=
  if fields.length ≠ 9 then ⟨app_state, .ok false⟩
  else
    match stoul P (fields.getD 0 []) with
    | .error e => ⟨app_state, .error e⟩
    | .ok v0 =>
    let app_state := { app_state with n_iterations := v0 % 2 ^ 32 }
    match stof P (fields.getD 1 []) with
    | .error e => ⟨app_state, .error e⟩
    | .ok v1 =>
    let app_state := { app_state with last_error := v1 }
    match stof P (fields.getD 2 []) with
    | .error e => ⟨app_state, .error e⟩
    | .ok v2 =>
    let app_state := { app_state with exploration_range := v2 }
    match stoi (fields.getD 3 []) with
    | .error e => ⟨app_state, .error e⟩
    | .ok v3 =>
    let app_state := { app_state with app_id := v3 }
    match stoi (fields.getD 4 []) with
    | .error e => ⟨app_state, .error e⟩
    | .ok v4 =>
    let app_state := { app_state with current_dataset := intToU8 v4 }
    match stoi (fields.getD 5 []) with
    | .error e => ⟨app_state, .error e⟩
    | .ok v5 =>
    let app_state := { app_state with current_model := intToU8 v5 }
    match stoi (fields.getD 6 []) with
    | .error e => ⟨app_state, .error e⟩
    | .ok v6 =>
    let app_state := { app_state with current_nn_mode := v6 }
    match stoi (fields.getD 7 []) with
    | .error e => ⟨app_state, .error e⟩
    | .ok v7 =>
    let app_state := { app_state with current_expl_mode := v7 }
    match stoul P (fields.getD 8 []) with
    | .error e => ⟨app_state, .error e⟩
    | .ok v8 =>
    let provided_checksum := v8 % 2 ^ 32
    ⟨app_state, .ok (checksumMatches P app_state provided_checksum)⟩

/-- `UART_Common::ExtractAppState(const std::string&, ts_app_state&)`. -/
def ExtractAppState (P : Platform) (input : Str) (app_state : ts_app_state) : Outcome :=
  ExtractAppStateFields P (SplitMessage input) app_state

/-- A 32-bit target such as the Cortex-M0+ of the device: 32-bit `unsigned long`, saturating
float-to-unsigned conversion (`__aeabi_f2uiz`), `ERANGE` on underflow. -/
def ilp32 : Platform where
  ulong64 := false
  f2u_unrepresentable := fun b =>
    if b / 2 ^ 31 % 2 = 1 ∨ 255 * 2 ^ 23 < b % 2 ^ 31 then 0 else 2 ^ 32 - 1
  underflow_erange := true

/-- An LP64 host: 64-bit `unsigned long`. -/
def lp64 : Platform where
  ulong64 := true
  f2u_unrepresentable := fun _ => 0
  underflow_erange := true

/-- The reference record of `UART_Common::Test`: `0.33519f` is `0x3eab9e06` and `0.21948f` is
`0x3e60bf5d`; `app_id_machinelisten = 2`, `mode_training = 1`, `expl_mode_pretrain = 1`
(spec, section 8). -/
def ref_app_state : ts_app_state :=
  ⟨1000, ⟨0x3eab9e06⟩, ⟨0x3e60bf5d⟩, 2, 2, 1, 1, 1⟩

/-- The checksum as the specification words it: the sum of the eight contributions, the integer
fields by their integer values and the float fields by the `uint32_t` truncation of the value
times 65536, taken modulo `2 ^ 32`. -/
def specChecksum (P : Platform) (r : ts_app_state) : Nat :=
  (((r.n_iterations : Int) + f2u P (fmulScaling r.last_error) +
    f2u P (fmulScaling r.exploration_range) + r.app_id + r.current_dataset +
    r.current_model + r.current_nn_mode + r.current_expl_mode) % 2 ^ 32).toNat

/-- The fault a conversion raised, if any. -/
def faultOf {α : Type} : Except Fault α → Option Fault
  | .ok _ => none
  | .error e => some e

/-- The nine conversions of `ExtractAppState` in the order the code calls them (tokens 1 to 8,
then the checksum token), each reduced to the fault it raises. -/
def conversionFaults (P : Platform) (fields : List Str) : List (Option Fault) :=
  [faultOf (stoul P (fields.getD 0 [])), faultOf (stof P (fields.getD 1 [])),
   faultOf (stof P (fields.getD 2 [])), faultOf (stoi (fields.getD 3 [])),
   faultOf (stoi (fields.getD 4 [])), faultOf (stoi (fields.getD 5 [])),
   faultOf (stoi (fields.getD 6 [])), faultOf (stoi (fields.getD 7 [])),
   faultOf (stoul P (fields.getD 8 []))]

/-- The first fault in a list of conversion outcomes. -/
def firstFault : List (Option Fault) → Option Fault
  | [] => none
  | some e :: _ => some e
  | none :: rest => firstFault rest

/-- The text grammar of an unsigned decimal integer: one or more decimal digits and nothing
else. -/
def isUnsignedDecimal (t : Str) : Bool :=
  t ≠ [] && t.all (fun c => (digitVal? c).isSome)

/-- The text grammar of a decimal integer: an optional `-` and an unsigned decimal integer. -/
def isDecimalInteger (t : Str) : Bool :=
  match t with
  | [] => false
  | c :: cs => if c = '-' then isUnsignedDecimal cs else isUnsignedDecimal (c :: cs)

/-- A record of zeros, standing for the caller's record before a call. -/
def zero_app_state : ts_app_state :=
  ⟨0, ⟨0⟩, ⟨0⟩, 0, 0, 0, 0, 0⟩

/-- The message with digit `i` of its ninth token replaced by the digit `d`, tokens 1 to 8
unchanged. -/
def corruptChecksumDigit (msg : Str) (i d : Nat) : Str :=
  ConcatMessage ((SplitMessage msg).set 8 (((SplitMessage msg).getD 8 []).set i (digitChar d)))

/-- The value of the local variable `checksum` of `FormatAppState` when it is written out. -/
def encodeChecksum (P : Platform) (r : ts_app_state) : Nat :=
  addU32 (addU32 (addU32 (addU32 (addU32 (addU32 (addU32 (addU32 0 r.n_iterations)
    (f2u P (fmulScaling r.last_error))) (f2u P (fmulScaling r.exploration_range)))
    (intToU32 r.app_id)) r.current_dataset) r.current_model) (intToU32 r.current_nn_mode))
    (intToU32 r.current_expl_mode)

/-- The nine values `FormatAppState` joins. -/
def encodeValues (P : Platform) (r : ts_app_state) : List Str :=
  [to_string_unsigned r.n_iterations, to_string_float r.last_error,
   to_string_float r.exploration_range, to_string_int r.app_id,
   to_string_int r.current_dataset, to_string_int r.current_model,
   to_string_int r.current_nn_mode, to_string_int r.current_expl_mode,
   to_string_unsigned (encodeChecksum P r)]

/-- The record `ExtractAppState` builds from nine converted values. -/
def parsedRecord (a0 : Nat) (a1 a2 : Float32) (a3 a4 a5 a6 a7 : Int) : ts_app_state :=
  ⟨a0 % 2 ^ 32, a1, a2, a3, intToU8 a4, intToU8 a5, a6, a7⟩

/-- `UART_Common::msgType`. -/
inductive msgType where
  | joystick
  | button
  | pulse_period
  | slider
  | state_request
  | state_dump
  | ui_info
  | midi_note
deriving DecidableEq, Repr

/-- The enumerator values of `msgType`, as `static_cast<char>` yields them. -/
def msgType.toChar : msgType → Char
  | .joystick => 'j'
  | .button => 'b'
  | .pulse_period => 'p'
  | .slider => 's'
  | .state_request => 'q'
  | .state_dump => 'd'
  | .ui_info => 'u'
  | .midi_note => 'n'

/-- `UART_Common::FormatMessageWithType`: `std::string(1, c) + "," + content`. -/
def FormatMessageWithType (msg_type : msgType) (content : Str) : Str :=
  ([msg_type.toChar] ++ [',']) ++ content

/-! ## Lemmas on the framing primitives -/

theorem joinSpec_cons (t : Str) (rest : List Str) (h : rest ≠ []) :
    joinSpec (t :: rest) = t ++ ',' :: joinSpec rest := by
  cases rest with
  | nil => exact absurd rfl h
  | cons u r => rfl

theorem ConcatMessage_loop_eq (msg : List Str) :
    ∀ (n i : Nat) (result : Str), i + n = msg.length →
      ConcatMessage.loop msg n i result = result ++ joinSpec (msg.drop i) := by
  intro n
  induction n with
  | zero =>
    intro i result h
    have : msg.drop i = [] := List.drop_eq_nil_of_le (by omega)
    simp [ConcatMessage.loop, this, joinSpec]
  | succ n ih =>
    intro i result h
    have hi : i < msg.length := by omega
    have hd : msg.drop i = msg[i] :: msg.drop (i + 1) := List.drop_eq_getElem_cons hi
    have hg : msg.getD i [] = msg[i] := by
      simp [List.getD, List.getElem?_eq_getElem hi]
    simp only [ConcatMessage.loop]
    rw [ih (i + 1) _ (by omega), hd, hg]
    by_cases hlast : i = msg.length - 1
    · have hnil : msg.drop (i + 1) = [] := List.drop_eq_nil_of_le (by omega)
      rw [hnil, if_neg (not_not.mpr hlast)]
      simp [joinSpec]
    · have hne : msg.drop (i + 1) ≠ [] := by
        intro h0
        have := List.drop_eq_nil_iff.mp h0
        omega
      rw [joinSpec_cons _ _ hne, if_pos hlast]
      simp

theorem ConcatMessage_eq_joinSpec (msg : List Str) : ConcatMessage msg = joinSpec msg := by
  unfold ConcatMessage
  rw [ConcatMessage_loop_eq msg msg.length 0 [] (by omega)]
  simp

theorem joinSpec_eq_intercalate (msg : List Str) : joinSpec msg = List.intercalate [','] msg := by
  induction msg with
  | nil => rfl
  | cons t rest ih =>
    cases rest with
    | nil => simp [joinSpec, List.intercalate]
    | cons u r =>
      have h := ih
      simp only [List.intercalate] at h ⊢
      simp only [joinSpec, List.intersperse, List.flatten_cons]
      rw [h]
      simp

theorem findFrom_none (rest : Str) :
    ∀ i, findFrom ',' rest i = none → splitSpec rest = [rest] := by
  induction rest with
  | nil => intro i _; rfl
  | cons c cs ih =>
    intro i h
    simp only [findFrom] at h
    by_cases hc : c = ','
    · simp [hc] at h
    · rw [if_neg hc] at h
      simp [splitSpec, hc, ih (i + 1) h]

theorem findFrom_some (rest : Str) :
    ∀ i e, findFrom ',' rest i = some e →
      ∃ k, e = i + k ∧ k < rest.length ∧
        splitSpec rest = rest.take k :: splitSpec (rest.drop (k + 1)) := by
  induction rest with
  | nil => intro i e h; simp [findFrom] at h
  | cons c cs ih =>
    intro i e h
    simp only [findFrom] at h
    by_cases hc : c = ','
    · rw [if_pos hc] at h
      refine ⟨0, ?_, by simp, ?_⟩
      · simpa using (Option.some.inj h).symm
      · simp [splitSpec, hc]
    · rw [if_neg hc] at h
      obtain ⟨k, hk, hlt, hsp⟩ := ih (i + 1) e h
      refine ⟨k + 1, by omega, by simpa using hlt, ?_⟩
      simp [splitSpec, hc, hsp]

theorem SplitMessage_loop_eq (input : Str) :
    ∀ (fuel : Nat) (tokens : List Str) (start : Nat),
      input.length ≤ start + fuel →
      SplitMessage.loop input fuel tokens start (find input ',' start) =
        some (tokens ++ splitSpec (input.drop start)) := by
  intro fuel
  induction fuel with
  | zero =>
    intro tokens start h
    have hnil : input.drop start = [] := List.drop_eq_nil_of_le (by omega)
    simp [find, hnil, findFrom, SplitMessage.loop, splitSpec]
  | succ fuel ih =>
    intro tokens start h
    cases hf : find input ',' start with
    | none =>
      have := findFrom_none (input.drop start) start hf
      simp [SplitMessage.loop, this]
    | some e =>
      obtain ⟨k, hk, hlt, hsp⟩ := findFrom_some (input.drop start) start e hf
      have hlen : start + k < input.length := by
        simp only [List.length_drop] at hlt
        omega
      simp only [SplitMessage.loop]
      rw [ih _ (e + 1) (by omega), hsp]
      have h1 : e - start = k := by omega
      have h2 : (input.drop start).drop (k + 1) = input.drop (e + 1) := by
        rw [List.drop_drop]
        congr 1
        omega
      simp [substr, h1, h2]

theorem SplitMessage_eq_splitSpec (input : Str) : SplitMessage input = splitSpec input := by
  unfold SplitMessage
  rw [SplitMessage_loop_eq input input.length [] 0 (by omega)]
  simp

theorem splitSpec_append_comma (t rest : Str) (ht : ',' ∉ t) :
    splitSpec (t ++ ',' :: rest) = t :: splitSpec rest := by
  induction t with
  | nil => simp [splitSpec]
  | cons c cs ih =>
    have hc : c ≠ ',' := fun h => ht (by simp [h])
    have hcs : ',' ∉ cs := fun h => ht (by simp [h])
    simp [splitSpec, hc, ih hcs]

theorem splitSpec_no_comma (t : Str) (ht : ',' ∉ t) : splitSpec t = [t] := by
  induction t with
  | nil => rfl
  | cons c cs ih =>
    have hc : c ≠ ',' := fun h => ht (by simp [h])
    have hcs : ',' ∉ cs := fun h => ht (by simp [h])
    simp [splitSpec, hc, ih hcs]

theorem splitSpec_joinSpec (tokens : List Str) (hne : tokens ≠ [])
    (h : ∀ t ∈ tokens, ',' ∉ t) : splitSpec (joinSpec tokens) = tokens := by
  induction tokens with
  | nil => exact absurd rfl hne
  | cons t rest ih =>
    cases rest with
    | nil => simpa [joinSpec] using splitSpec_no_comma t (h t (by simp))
    | cons u r =>
      have hr : ∀ x ∈ u :: r, ',' ∉ x := fun x hx => h x (List.mem_cons_of_mem _ hx)
      simp only [joinSpec]
      rw [splitSpec_append_comma _ _ (h t (by simp)), ih (by simp) hr]

theorem SplitMessage_ConcatMessage (tokens : List Str) (hne : tokens ≠ [])
    (h : ∀ t ∈ tokens, ',' ∉ t) : SplitMessage (ConcatMessage tokens) = tokens := by
  rw [SplitMessage_eq_splitSpec, ConcatMessage_eq_joinSpec, splitSpec_joinSpec tokens hne h]

/-! ## Lemmas on the integer conversions -/

theorem digitVal_digitChar (d : Nat) (h : d < 10) : digitVal? (digitChar d) = some d := by
  interval_cases d <;> rfl

theorem digitChar_props (d : Nat) :
    isspace (digitChar d) = false ∧ digitChar d ≠ '-' ∧ digitChar d ≠ '+' ∧
      digitChar d ≠ ',' := by
  unfold digitChar
  split <;> decide

theorem natDigits_go_lt (fuel : Nat) :
    ∀ (n : Nat) (acc : List Nat), (∀ d ∈ acc, d < 10) → n < fuel →
      ∀ d ∈ natDigits.go fuel n acc, d < 10 := by
  induction fuel with
  | zero => intro n acc _ h; omega
  | succ fuel ih =>
    intro n acc hacc hn
    simp only [natDigits.go]
    split
    · intro d hd
      rcases List.mem_cons.mp hd with h | h
      · omega
      · exact hacc d h
    · apply ih
      · intro d hd
        rcases List.mem_cons.mp hd with h | h
        · omega
        · exact hacc d h
      · omega

theorem natDigits_go_value (fuel : Nat) :
    ∀ (n : Nat) (acc : List Nat), n < fuel →
      (natDigits.go fuel n acc).foldl (fun a d => a * 10 + d) 0 =
        acc.foldl (fun a d => a * 10 + d) n := by
  induction fuel with
  | zero => intro n acc h; omega
  | succ fuel ih =>
    intro n acc hn
    simp only [natDigits.go]
    split
    · simp
    · rw [ih (n / 10) _ (by omega)]
      simp only [List.foldl_cons]
      congr 1
      omega

theorem natDigits_go_ne_nil (fuel : Nat) :
    ∀ (n : Nat) (acc : List Nat), n < fuel → natDigits.go fuel n acc ≠ [] := by
  induction fuel with
  | zero => intro n acc h; omega
  | succ fuel ih =>
    intro n acc hn
    simp only [natDigits.go]
    split
    · simp
    · exact ih _ _ (by omega)

theorem natDigits_lt (n : Nat) : ∀ d ∈ natDigits n, d < 10 :=
  natDigits_go_lt (n + 1) n [] (by simp) (by omega)

theorem ofDigits_natDigits (n : Nat) : ofDigits 10 (natDigits n) = n := by
  unfold ofDigits natDigits
  rw [natDigits_go_value (n + 1) n [] (by omega)]
  rfl

theorem natDigits_ne_nil (n : Nat) : natDigits n ≠ [] :=
  natDigits_go_ne_nil (n + 1) n [] (by omega)

theorem spanDigits_map_digitChar (ds : List Nat) (h : ∀ d ∈ ds, d < 10) :
    spanDigits digitVal? (ds.map digitChar) = (ds, []) := by
  induction ds with
  | nil => rfl
  | cons d ds ih =>
    have hd : d < 10 := h d (by simp)
    have hds : ∀ x ∈ ds, x < 10 := fun x hx => h x (List.mem_cons_of_mem _ hx)
    simp [spanDigits, digitVal_digitChar d hd, ih hds]

theorem skipSpace_digits (ds : List Nat) (h : ds ≠ []) :
    skipSpace (ds.map digitChar) = ds.map digitChar := by
  cases ds with
  | nil => exact absurd rfl h
  | cons d ds => simp [skipSpace, (digitChar_props d).1]

theorem takeSign_digits (ds : List Nat) (h : ds ≠ []) :
    takeSign (ds.map digitChar) = (false, ds.map digitChar) := by
  cases ds with
  | nil => exact absurd rfl h
  | cons d ds => simp [takeSign, (digitChar_props d).2.1, (digitChar_props d).2.2.1]

theorem to_string_unsigned_no_comma (n : Nat) : ',' ∉ to_string_unsigned n := by
  unfold to_string_unsigned
  intro h
  obtain ⟨d, _, hd⟩ := List.mem_map.mp h
  exact (digitChar_props d).2.2.2 hd

theorem to_string_int_no_comma (v : Int) : ',' ∉ to_string_int v := by
  unfold to_string_int
  split
  · intro h
    rcases List.mem_cons.mp h with h | h
    · exact absurd h (by decide)
    · exact to_string_unsigned_no_comma _ h
  · exact to_string_unsigned_no_comma _

theorem stoul_to_string_unsigned (P : Platform) (n : Nat) (h : n ≤ P.ULONG_MAX) :
    stoul P (to_string_unsigned n) = .ok n := by
  unfold stoul to_string_unsigned
  rw [skipSpace_digits _ (natDigits_ne_nil n), takeSign_digits _ (natDigits_ne_nil n)]
  simp only [spanDigits_map_digitChar _ (natDigits_lt n), ofDigits_natDigits]
  rw [if_neg (natDigits_ne_nil n), if_neg (by omega)]
  rfl

theorem ULONG_MAX_ge (P : Platform) : 2 ^ 32 - 1 ≤ P.ULONG_MAX := by
  unfold Platform.ULONG_MAX
  split <;> norm_num

theorem skipSpace_minus (s : Str) : skipSpace ('-' :: s) = '-' :: s := by
  have h : isspace '-' = false := by decide
  simp [skipSpace, h]

theorem takeSign_minus (s : Str) : takeSign ('-' :: s) = (true, s) := by
  simp [takeSign]

theorem stoi_to_string_int (v : Int) (h1 : -(2 : Int) ^ 31 ≤ v) (h2 : v < (2 : Int) ^ 31) :
    stoi (to_string_int v) = .ok v := by
  unfold stoi to_string_int to_string_unsigned
  by_cases hv : v < 0
  · rw [if_pos hv]
    obtain ⟨m, rfl⟩ : ∃ m : Nat, v = -(m : Int) := ⟨v.natAbs, by omega⟩
    have hm : (-(m : Int)).natAbs = m := by omega
    rw [hm, skipSpace_minus, takeSign_minus]
    simp only [spanDigits_map_digitChar _ (natDigits_lt _), ofDigits_natDigits]
    simp only [if_true, if_neg (natDigits_ne_nil m)]
    rw [if_neg (by omega)]
  · rw [if_neg hv]
    obtain ⟨m, rfl⟩ : ∃ m : Nat, v = (m : Int) := ⟨v.natAbs, by omega⟩
    have hm : ((m : Int)).natAbs = m := by omega
    rw [hm, skipSpace_digits _ (natDigits_ne_nil _), takeSign_digits _ (natDigits_ne_nil _)]
    simp only [spanDigits_map_digitChar _ (natDigits_lt _), ofDigits_natDigits]
    simp only [if_neg (natDigits_ne_nil m), Bool.false_eq_true, if_false]
    rw [if_neg (by omega)]

/-! ## Lemmas on the codec -/

theorem pad6_no_comma (n : Nat) : ',' ∉ pad6 n := by
  unfold pad6
  intro h
  simp only [List.mem_cons, List.mem_singleton, List.not_mem_nil, or_false] at h
  rcases h with h | h | h | h | h | h <;> exact (digitChar_props _).2.2.2 h.symm

theorem to_string_float_no_comma (x : Float32) : ',' ∉ to_string_float x := by
  have hs : ',' ∉ (if x.sign then ['-'] else ([] : Str)) := by
    split <;> decide
  unfold to_string_float
  intro h
  simp only at h
  split at h
  · rcases List.mem_append.mp h with h | h
    · exact hs h
    · exact absurd h (by decide)
  · split at h
    · rcases List.mem_append.mp h with h | h
      · exact hs h
      · exact absurd h (by decide)
    · rcases List.mem_append.mp h with h | h
      · rcases List.mem_append.mp h with h | h
        · exact hs h
        · exact to_string_unsigned_no_comma _ h
      · rcases List.mem_cons.mp h with h | h
        · exact absurd h (by decide)
        · exact pad6_no_comma _ h

theorem encodeValues_getD_8 (P : Platform) (r : ts_app_state) :
    (encodeValues P r).getD 8 [] = to_string_unsigned (encodeChecksum P r) := rfl

theorem FormatAppState_eq (P : Platform) (r : ts_app_state) :
    FormatAppState P r = ConcatMessage (encodeValues P r) := rfl

theorem encodeValues_no_comma (P : Platform) (r : ts_app_state) :
    ∀ t ∈ encodeValues P r, ',' ∉ t := by
  intro t ht
  simp only [encodeValues, List.mem_cons, List.mem_singleton, List.not_mem_nil, or_false] at ht
  rcases ht with h | h | h | h | h | h | h | h | h <;> subst h
  · exact to_string_unsigned_no_comma _
  · exact to_string_float_no_comma _
  · exact to_string_float_no_comma _
  · exact to_string_int_no_comma _
  · exact to_string_int_no_comma _
  · exact to_string_int_no_comma _
  · exact to_string_int_no_comma _
  · exact to_string_int_no_comma _
  · exact to_string_unsigned_no_comma _

theorem SplitMessage_FormatAppState (P : Platform) (r : ts_app_state) :
    SplitMessage (FormatAppState P r) = encodeValues P r := by
  rw [FormatAppState_eq]
  exact SplitMessage_ConcatMessage _ (by simp [encodeValues]) (encodeValues_no_comma P r)

theorem addU32_lt (a b : Nat) : addU32 a b < 2 ^ 32 := by
  unfold addU32
  exact Nat.mod_lt _ (by norm_num)

theorem encodeChecksum_lt (P : Platform) (r : ts_app_state) : encodeChecksum P r < 2 ^ 32 :=
  addU32_lt _ _

theorem encodeChecksum_eq_sum (P : Platform) (r : ts_app_state) :
    (encodeChecksum P r : Int) =
      ((r.n_iterations : Int) + f2u P (fmulScaling r.last_error) +
        f2u P (fmulScaling r.exploration_range) + r.app_id + r.current_dataset +
        r.current_model + r.current_nn_mode + r.current_expl_mode) % 2 ^ 32 := by
  unfold encodeChecksum addU32 intToU32
  omega

theorem checksumMatches_iff (P : Platform) (r : ts_app_state) (provided : Nat) :
    checksumMatches P r provided = true ↔ encodeChecksum P r = provided := by
  unfold checksumMatches encodeChecksum
  simp

theorem ExtractAppStateFields_of_parsed (P : Platform) (t0 t1 t2 t3 t4 t5 t6 t7 t8 : Str)
    (st : ts_app_state) (a0 : Nat) (a1 a2 : Float32) (a3 a4 a5 a6 a7 : Int) (a8 : Nat)
    (h0 : stoul P t0 = .ok a0) (h1 : stof P t1 = .ok a1) (h2 : stof P t2 = .ok a2)
    (h3 : stoi t3 = .ok a3) (h4 : stoi t4 = .ok a4) (h5 : stoi t5 = .ok a5)
    (h6 : stoi t6 = .ok a6) (h7 : stoi t7 = .ok a7) (h8 : stoul P t8 = .ok a8) :
    ExtractAppStateFields P [t0, t1, t2, t3, t4, t5, t6, t7, t8] st =
      ⟨parsedRecord a0 a1 a2 a3 a4 a5 a6 a7,
        .ok (checksumMatches P (parsedRecord a0 a1 a2 a3 a4 a5 a6 a7) (a8 % 2 ^ 32))⟩ := by
  simp [ExtractAppStateFields, parsedRecord, h0, h1, h2, h3, h4, h5, h6, h7, h8]

theorem specChecksum_eq (P : Platform) (r : ts_app_state) :
    specChecksum P r = encodeChecksum P r := by
  have h := encodeChecksum_eq_sum P r
  unfold specChecksum
  omega

theorem to_string_unsigned_inj (a b : Nat) (h : to_string_unsigned a = to_string_unsigned b) :
    a = b := by
  have ha := ofDigits_natDigits a
  have hb := ofDigits_natDigits b
  have hd : natDigits a = natDigits b := by
    unfold to_string_unsigned at h
    apply List.ext_getElem
    · simpa using congrArg List.length h
    · intro i h1 h2
      have hi : (List.map digitChar (natDigits a))[i]? = (List.map digitChar (natDigits b))[i]? := by
        rw [h]
      simp only [List.getElem?_map, List.getElem?_eq_getElem h1, List.getElem?_eq_getElem h2,
        Option.map_some', Option.some.injEq] at hi
      have e1 := digitVal_digitChar _ (natDigits_lt a _ (List.getElem_mem h1))
      have e2 := digitVal_digitChar _ (natDigits_lt b _ (List.getElem_mem h2))
      rw [hi, e2] at e1
      exact (Option.some.inj e1).symm
  rw [← ha, ← hb, hd]

theorem f2u_of_representable (P : Platform) (y : Float32)
    (h1 : (y.isNaN || y.isInf) = false) (h2 : y.sign = false) (h3 : y.mag / 2 ^ 149 < 2 ^ 32) :
    f2u P y = y.mag / 2 ^ 149 := by
  unfold f2u
  rw [h1, h2]
  simp only [Bool.false_eq_true, if_false, Bool.false_or, decide_eq_true_eq]
  split
  · omega
  · rw [if_neg (by omega)]

set_option maxRecDepth 10000 in
theorem f2u_ref_last_error (P : Platform) :
    f2u P (fmulScaling ref_app_state.last_error) = 33519 * 65536 / 100000 := by
  rw [f2u_of_representable P _ (by decide) (by decide) (by decide)]
  decide

set_option maxRecDepth 10000 in
theorem f2u_ref_exploration_range (P : Platform) :
    f2u P (fmulScaling ref_app_state.exploration_range) = 21948 * 65536 / 100000 := by
  rw [f2u_of_representable P _ (by decide) (by decide) (by decide)]
  decide

theorem encodeChecksum_ref (P : Platform) : encodeChecksum P ref_app_state = 37357 := by
  unfold encodeChecksum
  rw [f2u_ref_last_error, f2u_ref_exploration_range]
  decide

set_option maxRecDepth 10000 in
theorem to_string_unsigned_37357 : to_string_unsigned 37357 = ['3', '7', '3', '5', '7'] := by
  decide

/-! ## The claims -/

/-- C10: `ConcatMessage` returns the tokens in order with exactly one comma between consecutive
tokens (it is the intercalation of the tokens with the one-character separator, so there is no
leading or trailing comma and no escaping); the empty sequence gives the empty string and a
one-token sequence gives that token unchanged. -/
theorem C10_concat_is_comma_join (msg : List Str) :
    ConcatMessage msg = List.intercalate [','] msg ∧
    ConcatMessage [] = [] ∧
    (∀ t : Str, ConcatMessage [t] = t) ∧
    (∀ (t u : Str) (rest : List Str),
      ConcatMessage (t :: u :: rest) = t ++ ',' :: ConcatMessage (u :: rest)) := by
  refine ⟨?_, ?_, ?_, ?_⟩
  · rw [ConcatMessage_eq_joinSpec, joinSpec_eq_intercalate]
  · rfl
  · intro t
    rw [ConcatMessage_eq_joinSpec]
    rfl
  · intro t u rest
    rw [ConcatMessage_eq_joinSpec, ConcatMessage_eq_joinSpec]
    rfl

/-- C2 (counterexample): the empty token sequence has no token with a comma, yet joining it
gives the empty string, which splits into one empty token, not into the empty sequence. -/
theorem C2_empty_sequence_counterexample :
    (∀ t ∈ ([] : List Str), ',' ∉ t) ∧
    SplitMessage (ConcatMessage []) = [[]] ∧
    SplitMessage (ConcatMessage []) ≠ [] := by
  decide

/-- C2 (amended): for every non-empty sequence of tokens none of which contains a comma,
`SplitMessage (ConcatMessage tokens) = tokens`. -/
theorem C2_framing_round_trip (tokens : List Str) (hne : tokens ≠ [])
    (h : ∀ t ∈ tokens, ',' ∉ t) : SplitMessage (ConcatMessage tokens) = tokens :=
  SplitMessage_ConcatMessage tokens hne h

/-- C2 (witness): three tokens, one of them empty. -/
theorem C2_framing_round_trip_witness :
    SplitMessage (ConcatMessage [['a', 'b'], [], ['c']]) = [['a', 'b'], [], ['c']] :=
  C2_framing_round_trip [['a', 'b'], [], ['c']] (by decide) (by decide)

/-- C3: the ninth token of `FormatAppState R` is the decimal text of the sum, modulo `2 ^ 32`, of
`n_iterations`, the `uint32_t` truncations of `last_error * 65536` and of
`exploration_range * 65536`, and the integer values of `app_id`, `current_dataset`,
`current_model`, `current_nn_mode` and `current_expl_mode`. For the reference record the two
truncations are `floor (0.33519 * 65536) = 21967` and `floor (0.21948 * 65536) = 14383`, and the
token is `37357`. -/
theorem C3_checksum_token (P : Platform) (R : ts_app_state) :
    (SplitMessage (FormatAppState P R)).getD 8 [] =
      to_string_unsigned
        (((R.n_iterations : Int) + f2u P (fmulScaling R.last_error) +
          f2u P (fmulScaling R.exploration_range) + R.app_id + R.current_dataset +
          R.current_model + R.current_nn_mode + R.current_expl_mode) % 2 ^ 32).toNat ∧
    f2u P (fmulScaling ref_app_state.last_error) = 33519 * 65536 / 100000 ∧
    f2u P (fmulScaling ref_app_state.exploration_range) = 21948 * 65536 / 100000 ∧
    (SplitMessage (FormatAppState P ref_app_state)).getD 8 [] = ['3', '7', '3', '5', '7'] ∧
    1000 + 33519 * 65536 / 100000 + 21948 * 65536 / 100000 + 2 + 2 + 1 + 1 + 1 = 37357 := by
  refine ⟨?_, f2u_ref_last_error P, f2u_ref_exploration_range P, ?_, by norm_num⟩
  · rw [SplitMessage_FormatAppState, encodeValues_getD_8, ← specChecksum_eq]
    rfl
  · rw [SplitMessage_FormatAppState, encodeValues_getD_8, encodeChecksum_ref,
      to_string_unsigned_37357]

/-- C5: a token vector whose size is not 9, and a string that does not split into exactly 9
tokens, make `ExtractAppState` return `false`; the call ends with that value and not with an
exception, whatever the tokens contain. -/
theorem C5_field_count_rejection (P : Platform) (fields : List Str) (input : Str)
    (st : ts_app_state) :
    (fields.length ≠ 9 → (ExtractAppStateFields P fields st).result = .ok false) ∧
    ((SplitMessage input).length ≠ 9 → (ExtractAppState P input st).result = .ok false) := by
  constructor
  · intro h
    simp [ExtractAppStateFields, h]
  · intro h
    simp [ExtractAppState, ExtractAppStateFields, h]

/-- C5 (witness): a one-token vector that is not a number, and a ten-token string. -/
theorem C5_field_count_rejection_witness :
    ([['x']] : List Str).length ≠ 9 ∧
    (ExtractAppStateFields ilp32 [['x']] ref_app_state).result = .ok false ∧
    (SplitMessage "1000,0.335190,0.219480,2,2,1,1,1,37357,".toList).length ≠ 9 ∧
    (ExtractAppState ilp32 "1000,0.335190,0.219480,2,2,1,1,1,37357,".toList
      ref_app_state).result = .ok false :=
  ⟨by decide,
   (C5_field_count_rejection ilp32 [['x']] [] ref_app_state).1 (by decide),
   by decide,
   (C5_field_count_rejection ilp32 [] "1000,0.335190,0.219480,2,2,1,1,1,37357,".toList
      ref_app_state).2 (by decide)⟩

/-- C6: `FormatAppState R` always splits into exactly 9 tokens: they are the nine values that
were joined, and none of them contains a comma. -/
theorem C6_encoded_token_count (P : Platform) (R : ts_app_state) :
    (SplitMessage (FormatAppState P R)).length = 9 ∧
    (∀ t ∈ SplitMessage (FormatAppState P R), ',' ∉ t) ∧
    ConcatMessage (SplitMessage (FormatAppState P R)) = FormatAppState P R := by
  rw [SplitMessage_FormatAppState]
  exact ⟨rfl, encodeValues_no_comma P R, rfl⟩

/-- C4: when all nine tokens convert, `ExtractAppState` returns `true` exactly when the checksum
of the eight converted field values (their sum modulo `2 ^ 32`, the two floats scaled by 65536
and truncated) equals the converted ninth token; this is the checksum `FormatAppState` writes
for that record, and nothing else enters the result. The string overload is the same call on
the split input. -/
theorem C4_decode_acceptance (P : Platform) (t0 t1 t2 t3 t4 t5 t6 t7 t8 : Str)
    (st : ts_app_state) (a0 : Nat) (a1 a2 : Float32) (a3 a4 a5 a6 a7 : Int) (a8 : Nat)
    (h0 : stoul P t0 = .ok a0) (h1 : stof P t1 = .ok a1) (h2 : stof P t2 = .ok a2)
    (h3 : stoi t3 = .ok a3) (h4 : stoi t4 = .ok a4) (h5 : stoi t5 = .ok a5)
    (h6 : stoi t6 = .ok a6) (h7 : stoi t7 = .ok a7) (h8 : stoul P t8 = .ok a8) :
    (ExtractAppStateFields P [t0, t1, t2, t3, t4, t5, t6, t7, t8] st).result =
      .ok (decide (specChecksum P ⟨a0 % 2 ^ 32, a1, a2, a3, intToU8 a4, intToU8 a5, a6, a7⟩ =
        a8 % 2 ^ 32)) ∧
    ((ExtractAppStateFields P [t0, t1, t2, t3, t4, t5, t6, t7, t8] st).result = .ok true ↔
      (SplitMessage (FormatAppState P
        ⟨a0 % 2 ^ 32, a1, a2, a3, intToU8 a4, intToU8 a5, a6, a7⟩)).getD 8 [] =
          to_string_unsigned (a8 % 2 ^ 32)) ∧
    (∀ input : Str, SplitMessage input = [t0, t1, t2, t3, t4, t5, t6, t7, t8] →
      ExtractAppState P input st =
        ExtractAppStateFields P [t0, t1, t2, t3, t4, t5, t6, t7, t8] st) := by
  have hx := ExtractAppStateFields_of_parsed P t0 t1 t2 t3 t4 t5 t6 t7 t8 st a0 a1 a2 a3 a4 a5
    a6 a7 a8 h0 h1 h2 h3 h4 h5 h6 h7 h8
  have hp : parsedRecord a0 a1 a2 a3 a4 a5 a6 a7 =
      ⟨a0 % 2 ^ 32, a1, a2, a3, intToU8 a4, intToU8 a5, a6, a7⟩ := rfl
  rw [hp] at hx
  rw [hx]
  refine ⟨?_, ?_, ?_⟩
  · simp only [Except.ok.injEq]
    rw [Bool.eq_iff_iff, checksumMatches_iff, specChecksum_eq]
    simp
  · rw [SplitMessage_FormatAppState, encodeValues_getD_8]
    simp only [Except.ok.injEq]
    rw [checksumMatches_iff]
    constructor
    · intro h
      rw [h]
    · intro h
      exact to_string_unsigned_inj _ _ h
  · intro input hin
    unfold ExtractAppState
    rw [hin, hx]

/-- C8: when all nine tokens convert but the recomputed checksum differs from the converted
ninth token, `ExtractAppState` returns `false` and the caller's record holds the values converted
from tokens 1 to 8 in all eight fields, whatever it held before. -/
theorem C8_populated_on_mismatch (P : Platform) (t0 t1 t2 t3 t4 t5 t6 t7 t8 : Str)
    (st : ts_app_state) (a0 : Nat) (a1 a2 : Float32) (a3 a4 a5 a6 a7 : Int) (a8 : Nat)
    (h0 : stoul P t0 = .ok a0) (h1 : stof P t1 = .ok a1) (h2 : stof P t2 = .ok a2)
    (h3 : stoi t3 = .ok a3) (h4 : stoi t4 = .ok a4) (h5 : stoi t5 = .ok a5)
    (h6 : stoi t6 = .ok a6) (h7 : stoi t7 = .ok a7) (h8 : stoul P t8 = .ok a8)
    (hmis : specChecksum P ⟨a0 % 2 ^ 32, a1, a2, a3, intToU8 a4, intToU8 a5, a6, a7⟩ ≠
      a8 % 2 ^ 32) :
    ExtractAppStateFields P [t0, t1, t2, t3, t4, t5, t6, t7, t8] st =
      ⟨⟨a0 % 2 ^ 32, a1, a2, a3, intToU8 a4, intToU8 a5, a6, a7⟩, .ok false⟩ := by
  have hx := ExtractAppStateFields_of_parsed P t0 t1 t2 t3 t4 t5 t6 t7 t8 st a0 a1 a2 a3 a4 a5
    a6 a7 a8 h0 h1 h2 h3 h4 h5 h6 h7 h8
  have hp : parsedRecord a0 a1 a2 a3 a4 a5 a6 a7 =
      ⟨a0 % 2 ^ 32, a1, a2, a3, intToU8 a4, intToU8 a5, a6, a7⟩ := rfl
  rw [hp] at hx
  rw [hx]
  have hf : checksumMatches P ⟨a0 % 2 ^ 32, a1, a2, a3, intToU8 a4, intToU8 a5, a6, a7⟩
      (a8 % 2 ^ 32) = false := by
    rw [Bool.eq_false_iff]
    intro h
    rw [checksumMatches_iff, ← specChecksum_eq] at h
    exact hmis h
  rw [hf]

theorem firstFault_of_conversions (P : Platform) (fields : List Str) (st : ts_app_state)
    (hlen : fields.length = 9) :
    (∀ e, firstFault (conversionFaults P fields) = some e →
      (ExtractAppStateFields P fields st).result = .error e) ∧
    (firstFault (conversionFaults P fields) = none →
      ∃ b, (ExtractAppStateFields P fields st).result = .ok b) := by
  unfold ExtractAppStateFields conversionFaults
  rw [if_neg (by simp [hlen])]
  cases stoul P (fields.getD 0 []) with
  | error e => simp [faultOf, firstFault]
  | ok v0 =>
  cases stof P (fields.getD 1 []) with
  | error e => simp [faultOf, firstFault]
  | ok v1 =>
  cases stof P (fields.getD 2 []) with
  | error e => simp [faultOf, firstFault]
  | ok v2 =>
  cases stoi (fields.getD 3 []) with
  | error e => simp [faultOf, firstFault]
  | ok v3 =>
  cases stoi (fields.getD 4 []) with
  | error e => simp [faultOf, firstFault]
  | ok v4 =>
  cases stoi (fields.getD 5 []) with
  | error e => simp [faultOf, firstFault]
  | ok v5 =>
  cases stoi (fields.getD 6 []) with
  | error e => simp [faultOf, firstFault]
  | ok v6 =>
  cases stoi (fields.getD 7 []) with
  | error e => simp [faultOf, firstFault]
  | ok v7 =>
  cases stoul P (fields.getD 8 []) with
  | error e => simp [faultOf, firstFault]
  | ok v8 => simp [faultOf, firstFault]

theorem firstFault_some_of_mem (l : List (Option Fault)) (h : ∃ e, some e ∈ l) :
    ∃ e, firstFault l = some e := by
  induction l with
  | nil => simp at h
  | cons o rest ih =>
    cases o with
    | some e => exact ⟨e, rfl⟩
    | none =>
      obtain ⟨e, he⟩ := h
      have : some e ∈ rest := by simpa using he
      exact ih ⟨e, this⟩

theorem firstFault_none_of_all (l : List (Option Fault)) (h : ∀ o ∈ l, o = none) :
    firstFault l = none := by
  induction l with
  | nil => rfl
  | cons o rest ih =>
    have ho : o = none := h o (by simp)
    subst ho
    exact ih (fun x hx => h x (List.mem_cons_of_mem _ hx))

theorem parsedRecord_of_valid (R : ts_app_state) (hR : R.Valid) :
    parsedRecord R.n_iterations R.last_error R.exploration_range R.app_id R.current_dataset
      R.current_model R.current_nn_mode R.current_expl_mode = R := by
  obtain ⟨h0, _, _, _, h4, h5, _, _⟩ := hR
  cases R
  simp only [parsedRecord, intToU8, ts_app_state.mk.injEq, true_and, and_true] at h0 h4 h5 ⊢
  omega

/-- C1 (amended): for every valid record `R`, decoding `FormatAppState R` reports success and
fills the record with exactly `R` if and only if each of the two float fields is reproduced by
the text conversion, that is `std::stof (std::to_string f)` is `f` again. -/
theorem C1_round_trip_iff (P : Platform) (R st : ts_app_state) (hR : R.Valid) :
    ExtractAppState P (FormatAppState P R) st = ⟨R, .ok true⟩ ↔
      (stof P (to_string_float R.last_error) = .ok R.last_error ∧
       stof P (to_string_float R.exploration_range) = .ok R.exploration_range) := by
  have hu := ULONG_MAX_ge P
  have hc := encodeChecksum_lt P R
  have hrec := parsedRecord_of_valid R hR
  obtain ⟨v0, _, _, v3, v4, v5, v6, v7⟩ := hR
  have h0 := stoul_to_string_unsigned P R.n_iterations (by omega)
  have h3 := stoi_to_string_int R.app_id v3.1 v3.2
  have h4 := stoi_to_string_int (R.current_dataset : Int) (by omega) (by omega)
  have h5 := stoi_to_string_int (R.current_model : Int) (by omega) (by omega)
  have h6 := stoi_to_string_int R.current_nn_mode v6.1 v6.2
  have h7 := stoi_to_string_int R.current_expl_mode v7.1 v7.2
  have h8 := stoul_to_string_unsigned P (encodeChecksum P R) (by omega)
  unfold ExtractAppState
  rw [SplitMessage_FormatAppState]
  unfold encodeValues
  cases h1 : stof P (to_string_float R.last_error) with
  | error e =>
    have hx : (ExtractAppStateFields P [to_string_unsigned R.n_iterations,
        to_string_float R.last_error, to_string_float R.exploration_range,
        to_string_int R.app_id, to_string_int R.current_dataset,
        to_string_int R.current_model, to_string_int R.current_nn_mode,
        to_string_int R.current_expl_mode, to_string_unsigned (encodeChecksum P R)]
        st).result = .error e := by
      simp [ExtractAppStateFields, h0, h1]
    constructor
    · intro h
      rw [h] at hx
      cases hx
    · intro h
      cases h.1
  | ok a1 =>
    cases h2 : stof P (to_string_float R.exploration_range) with
    | error e =>
      have hx : (ExtractAppStateFields P [to_string_unsigned R.n_iterations,
          to_string_float R.last_error, to_string_float R.exploration_range,
          to_string_int R.app_id, to_string_int R.current_dataset,
          to_string_int R.current_model, to_string_int R.current_nn_mode,
          to_string_int R.current_expl_mode, to_string_unsigned (encodeChecksum P R)]
          st).result = .error e := by
        simp [ExtractAppStateFields, h0, h1, h2]
      constructor
      · intro h
        rw [h] at hx
        cases hx
      · intro h
        cases h.2
    | ok a2 =>
      rw [ExtractAppStateFields_of_parsed P _ _ _ _ _ _ _ _ _ st _ _ _ _ _ _ _ _ _
        h0 h1 h2 h3 h4 h5 h6 h7 h8]
      constructor
      · intro h
        have hs := congrArg Outcome.app_state h
        have e1 := congrArg ts_app_state.last_error hs
        have e2 := congrArg ts_app_state.exploration_range hs
        simp only [parsedRecord] at e1 e2
        rw [e1, e2]
        exact ⟨rfl, rfl⟩
      · rintro ⟨e1, e2⟩
        cases e1
        cases e2
        rw [hrec]
        have hm : checksumMatches P R (encodeChecksum P R % 2 ^ 32) = true := by
          rw [checksumMatches_iff, Nat.mod_eq_of_lt hc]
        rw [hm]

set_option maxRecDepth 10000 in
/-- C1 (counterexample): the valid record whose `last_error` is `2 ^ (-16)` (`0x37800000`, all
other fields zero) is encoded as `0,0.000015,0.000000,0,0,0,0,0,1`; decoding that string returns
`false` and leaves `last_error = 0.000015f` (`0x377ba882`), so neither success nor the record is
reproduced. The same happens with 32-bit and with 64-bit `unsigned long`. -/
theorem C1_float_text_counterexample :
    (⟨0, ⟨0x37800000⟩, ⟨0⟩, 0, 0, 0, 0, 0⟩ : ts_app_state).Valid ∧
    FormatAppState ilp32 ⟨0, ⟨0x37800000⟩, ⟨0⟩, 0, 0, 0, 0, 0⟩ =
      "0,0.000015,0.000000,0,0,0,0,0,1".toList ∧
    ExtractAppState ilp32 (FormatAppState ilp32 ⟨0, ⟨0x37800000⟩, ⟨0⟩, 0, 0, 0, 0, 0⟩)
      zero_app_state = ⟨⟨0, ⟨0x377ba882⟩, ⟨0⟩, 0, 0, 0, 0, 0⟩, .ok false⟩ ∧
    ExtractAppState lp64 (FormatAppState lp64 ⟨0, ⟨0x37800000⟩, ⟨0⟩, 0, 0, 0, 0, 0⟩)
      zero_app_state = ⟨⟨0, ⟨0x377ba882⟩, ⟨0⟩, 0, 0, 0, 0, 0⟩, .ok false⟩ ∧
    ExtractAppState ilp32 (FormatAppState ilp32 ⟨0, ⟨0x37800000⟩, ⟨0⟩, 0, 0, 0, 0, 0⟩)
      zero_app_state ≠ ⟨⟨0, ⟨0x37800000⟩, ⟨0⟩, 0, 0, 0, 0, 0⟩, .ok true⟩ := by
  decide

set_option maxRecDepth 10000 in
/-- C1 (witness): the reference record of the self-test is valid, both of its floats are
reproduced by the text conversion, and it round-trips. -/
theorem C1_round_trip_iff_witness :
    ref_app_state.Valid ∧
    ExtractAppState ilp32 (FormatAppState ilp32 ref_app_state) zero_app_state =
      ⟨ref_app_state, .ok true⟩ :=
  ⟨by decide,
   (C1_round_trip_iff ilp32 ref_app_state zero_app_state (by decide)).mpr
     ⟨by decide, by decide⟩⟩

set_option maxRecDepth 10000 in
/-- C4 (witness): the nine tokens of the encoded reference record. -/
theorem C4_decode_acceptance_witness :
    (ExtractAppStateFields ilp32
      ["1000".toList, "0.335190".toList, "0.219480".toList, "2".toList, "2".toList,
       "1".toList, "1".toList, "1".toList, "37357".toList] zero_app_state).result =
      .ok (decide (specChecksum ilp32
        ⟨1000 % 2 ^ 32, ⟨0x3eab9e06⟩, ⟨0x3e60bf5d⟩, 2, intToU8 2, intToU8 1, 1, 1⟩ =
          37357 % 2 ^ 32)) :=
  (C4_decode_acceptance ilp32 "1000".toList "0.335190".toList "0.219480".toList "2".toList
    "2".toList "1".toList "1".toList "1".toList "37357".toList zero_app_state
    1000 ⟨0x3eab9e06⟩ ⟨0x3e60bf5d⟩ 2 2 1 1 1 37357
    (by decide) (by decide) (by decide) (by decide) (by decide) (by decide) (by decide)
    (by decide) (by decide)).1

set_option maxRecDepth 10000 in
/-- C8 (witness): the encoded reference record with the checksum token `37358`; the caller's
record held zeros before the call. -/
theorem C8_populated_on_mismatch_witness :
    ExtractAppStateFields ilp32
      ["1000".toList, "0.335190".toList, "0.219480".toList, "2".toList, "2".toList,
       "1".toList, "1".toList, "1".toList, "37358".toList] zero_app_state =
      ⟨⟨1000 % 2 ^ 32, ⟨0x3eab9e06⟩, ⟨0x3e60bf5d⟩, 2, intToU8 2, intToU8 1, 1, 1⟩, .ok false⟩ :=
  C8_populated_on_mismatch ilp32 "1000".toList "0.335190".toList "0.219480".toList "2".toList
    "2".toList "1".toList "1".toList "1".toList "37358".toList zero_app_state
    1000 ⟨0x3eab9e06⟩ ⟨0x3e60bf5d⟩ 2 2 1 1 1 37358
    (by decide) (by decide) (by decide) (by decide) (by decide) (by decide) (by decide)
    (by decide) (by decide) (by decide)

set_option maxRecDepth 10000 in
/-- C9 (counterexample): `1000x` is not an unsigned decimal integer and `258` is not within
`uint8_t`, yet with either in place of the first or fifth token of the encoded reference record
`ExtractAppState` returns `true`, with the reference record as the result: `std::stoul` ignores
what follows the digits and the `int` converted from token 5 is cast to `uint8_t`. -/
theorem C9_lenient_conversion_counterexample :
    isUnsignedDecimal "1000x".toList = false ∧
    ExtractAppState ilp32 "1000x,0.335190,0.219480,2,2,1,1,1,37357".toList zero_app_state =
      ⟨ref_app_state, .ok true⟩ ∧
    isDecimalInteger "258".toList = true ∧ ¬ ((258 : Int) < 256) ∧
    ExtractAppState ilp32 "1000,0.335190,0.219480,2,258,1,1,1,37357".toList zero_app_state =
      ⟨ref_app_state, .ok true⟩ := by
  decide

/-- C9 (amended): for every 9-token input in which at least one of the nine conversions
(`std::stoul` for tokens 1 and 9, `std::stof` for tokens 2 and 3, `std::stoi` for tokens 4 to 8)
raises a fault, `ExtractAppState` ends with a fault and returns nothing, and the fault is that of
the first such token in the order tokens 1 to 9; when no conversion raises a fault the call
returns. -/
theorem C9_conversion_fault (P : Platform) (fields : List Str) (st : ts_app_state)
    (hlen : fields.length = 9) :
    ((∃ e, some e ∈ conversionFaults P fields) →
      ∃ e, firstFault (conversionFaults P fields) = some e ∧
        (ExtractAppStateFields P fields st).result = .error e ∧
        (ExtractAppStateFields P fields st).result ≠ .ok true) ∧
    ((∀ o ∈ conversionFaults P fields, o = none) →
      ∃ b, (ExtractAppStateFields P fields st).result = .ok b) := by
  have h := firstFault_of_conversions P fields st hlen
  constructor
  · intro hbad
    obtain ⟨e, he⟩ := firstFault_some_of_mem _ hbad
    have hr := h.1 e he
    refine ⟨e, he, hr, ?_⟩
    rw [hr]
    intro hc
    cases hc
  · intro hall
    exact h.2 (firstFault_none_of_all _ hall)

set_option maxRecDepth 10000 in
/-- C9 (witness): token 4 is out of the `int` range and token 9 has no digit; the call ends with
the fault of token 4. -/
theorem C9_conversion_fault_witness :
    (ExtractAppStateFields ilp32
      ["1000".toList, "0.5".toList, "0.25".toList, "99999999999".toList, "2".toList,
       "1".toList, "1".toList, "1".toList, "".toList] zero_app_state).result =
      .error .out_of_range := by
  obtain ⟨e, he, hr, _⟩ := (C9_conversion_fault ilp32
      ["1000".toList, "0.5".toList, "0.25".toList, "99999999999".toList, "2".toList,
       "1".toList, "1".toList, "1".toList, "".toList] zero_app_state (by decide)).1
    ⟨.out_of_range, by decide⟩
  have hf : firstFault (conversionFaults ilp32
      ["1000".toList, "0.5".toList, "0.25".toList, "99999999999".toList, "2".toList,
       "1".toList, "1".toList, "1".toList, "".toList]) = some .out_of_range := by decide
  rw [hf] at he
  cases he
  exact hr

/-! ## Lemmas on digit sequences -/

theorem ofDigits_foldl (b : Nat) (ds : List Nat) (a : Nat) :
    ds.foldl (fun x d => x * b + d) a = a * b ^ ds.length + ofDigits b ds := by
  unfold ofDigits
  induction ds generalizing a with
  | nil => simp
  | cons d ds ih =>
    simp only [List.foldl_cons, List.length_cons]
    rw [ih (a * b + d), ih (0 * b + d)]
    ring

theorem ofDigits_cons (b d : Nat) (ds : List Nat) :
    ofDigits b (d :: ds) = d * b ^ ds.length + ofDigits b ds := by
  have h := ofDigits_foldl b ds (0 * b + d)
  unfold ofDigits at h ⊢
  simp only [List.foldl_cons]
  rw [h]
  ring

theorem ofDigits_lt (ds : List Nat) (h : ∀ d ∈ ds, d < 10) : ofDigits 10 ds < 10 ^ ds.length := by
  induction ds with
  | nil => simp [ofDigits]
  | cons d ds ih =>
    have hd : d < 10 := h d (by simp)
    have := ih (fun x hx => h x (List.mem_cons_of_mem _ hx))
    rw [ofDigits_cons, List.length_cons, pow_succ]
    nlinarith

theorem ofDigits_set (ds : List Nat) :
    ∀ (i d : Nat), i < ds.length →
      ∃ k A, k < ds.length ∧ ofDigits 10 (ds.set i d) = A + d * 10 ^ k ∧
        ofDigits 10 ds = A + ds.getD i 0 * 10 ^ k := by
  induction ds with
  | nil => intro i d h; simp at h
  | cons x xs ih =>
    intro i d h
    cases i with
    | zero =>
      refine ⟨xs.length, ofDigits 10 xs, by simp, ?_, ?_⟩
      · rw [List.set_cons_zero, ofDigits_cons]
        ring
      · rw [ofDigits_cons]
        simp
        ring
    | succ i =>
      obtain ⟨k, A, hk, h1, h2⟩ := ih i d (by simpa using h)
      refine ⟨k, x * 10 ^ xs.length + A, by simp; omega, ?_, ?_⟩
      · rw [List.set_cons_succ, ofDigits_cons, List.length_set, h1]
        ring
      · rw [ofDigits_cons, h2]
        simp
        ring

set_option maxRecDepth 10000 in
theorem digit_place_mod :
    ∀ k < 10, ∀ x < 10, ∀ y < 10, x * 10 ^ k % 2 ^ 32 = y * 10 ^ k % 2 ^ 32 → x = y := by
  decide

theorem ofDigits_set_mod_ne (ds : List Nat) (i d : Nat) (hlen : ds.length ≤ 10)
    (hi : i < ds.length) (hd : d < 10) (hds : ∀ x ∈ ds, x < 10) (hne : ds.getD i 0 ≠ d) :
    ofDigits 10 (ds.set i d) % 2 ^ 32 ≠ ofDigits 10 ds % 2 ^ 32 := by
  obtain ⟨k, A, hk, h1, h2⟩ := ofDigits_set ds i d hi
  have hx : ds.getD i 0 < 10 := by
    rw [List.getD_eq_getElem _ _ hi]
    exact hds _ (List.getElem_mem hi)
  intro h
  rw [h1, h2] at h
  have hm : Nat.ModEq (2 ^ 32) (A + d * 10 ^ k) (A + ds.getD i 0 * 10 ^ k) := h
  have hm2 : Nat.ModEq (2 ^ 32) (d * 10 ^ k) (ds.getD i 0 * 10 ^ k) :=
    Nat.ModEq.add_left_cancel' A hm
  exact hne (digit_place_mod k (by omega) _ hx d hd hm2.symm)

theorem natDigits_go_length (fuel : Nat) :
    ∀ (k n : Nat) (acc : List Nat), n < fuel → n < 10 ^ (k + 1) →
      (natDigits.go fuel n acc).length ≤ k + 1 + acc.length := by
  induction fuel with
  | zero => intro k n acc h; omega
  | succ fuel ih =>
    intro k n acc hn hk
    simp only [natDigits.go]
    split
    · simp
      omega
    · rename_i h10
      cases k with
      | zero => simp at hk; omega
      | succ k =>
        have hdiv : n / 10 < 10 ^ (k + 1) := by
          apply Nat.div_lt_of_lt_mul
          rw [pow_succ] at hk
          omega
        have := ih k (n / 10) (n % 10 :: acc) (by omega) hdiv
        simp only [List.length_cons] at this
        omega

theorem natDigits_length_le (n : Nat) (h : n < 2 ^ 32) : (natDigits n).length ≤ 10 := by
  have := natDigits_go_length (n + 1) 9 n [] (by omega) (by norm_num at h ⊢; omega)
  simpa [natDigits] using this

theorem stoul_digits (P : Platform) (ds : List Nat) (hne : ds ≠ []) (hlt : ∀ d ∈ ds, d < 10) :
    stoul P (ds.map digitChar) =
      if ofDigits 10 ds > P.ULONG_MAX then .error .out_of_range else .ok (ofDigits 10 ds) := by
  unfold stoul
  rw [skipSpace_digits _ hne, takeSign_digits _ hne]
  simp only [spanDigits_map_digitChar _ hlt]
  rw [if_neg hne]
  simp

theorem ExtractAppStateFields_of_checksum_fault (P : Platform)
    (t0 t1 t2 t3 t4 t5 t6 t7 t8 : Str)
    (st : ts_app_state) (a0 : Nat) (a1 a2 : Float32) (a3 a4 a5 a6 a7 : Int) (e : Fault)
    (h0 : stoul P t0 = .ok a0) (h1 : stof P t1 = .ok a1) (h2 : stof P t2 = .ok a2)
    (h3 : stoi t3 = .ok a3) (h4 : stoi t4 = .ok a4) (h5 : stoi t5 = .ok a5)
    (h6 : stoi t6 = .ok a6) (h7 : stoi t7 = .ok a7) (h8 : stoul P t8 = .error e) :
    ExtractAppStateFields P [t0, t1, t2, t3, t4, t5, t6, t7, t8] st =
      ⟨parsedRecord a0 a1 a2 a3 a4 a5 a6 a7, .error e⟩ := by
  simp [ExtractAppStateFields, parsedRecord, h0, h1, h2, h3, h4, h5, h6, h7, h8]

theorem conversions_of_returned (P : Platform) (t0 t1 t2 t3 t4 t5 t6 t7 t8 : Str)
    (st : ts_app_state) (b : Bool)
    (h : (ExtractAppStateFields P [t0, t1, t2, t3, t4, t5, t6, t7, t8] st).result = .ok b) :
    ∃ (a0 : Nat) (a1 a2 : Float32) (a3 a4 a5 a6 a7 : Int) (a8 : Nat),
      stoul P t0 = .ok a0 ∧ stof P t1 = .ok a1 ∧ stof P t2 = .ok a2 ∧ stoi t3 = .ok a3 ∧
      stoi t4 = .ok a4 ∧ stoi t5 = .ok a5 ∧ stoi t6 = .ok a6 ∧ stoi t7 = .ok a7 ∧
      stoul P t8 = .ok a8 := by
  unfold ExtractAppStateFields at h
  simp only [List.length_cons, List.length_nil, List.getD_cons_zero, List.getD_cons_succ] at h
  cases h0 : stoul P t0 with
  | error e => simp [h0] at h
  | ok a0 =>
  cases h1 : stof P t1 with
  | error e => simp [h0, h1] at h
  | ok a1 =>
  cases h2 : stof P t2 with
  | error e => simp [h0, h1, h2] at h
  | ok a2 =>
  cases h3 : stoi t3 with
  | error e => simp [h0, h1, h2, h3] at h
  | ok a3 =>
  cases h4 : stoi t4 with
  | error e => simp [h0, h1, h2, h3, h4] at h
  | ok a4 =>
  cases h5 : stoi t5 with
  | error e => simp [h0, h1, h2, h3, h4, h5] at h
  | ok a5 =>
  cases h6 : stoi t6 with
  | error e => simp [h0, h1, h2, h3, h4, h5, h6] at h
  | ok a6 =>
  cases h7 : stoi t7 with
  | error e => simp [h0, h1, h2, h3, h4, h5, h6, h7] at h
  | ok a7 =>
  cases h8 : stoul P t8 with
  | error e => simp [h0, h1, h2, h3, h4, h5, h6, h7, h8] at h
  | ok a8 => exact ⟨a0, a1, a2, a3, a4, a5, a6, a7, a8, rfl, rfl, rfl, rfl, rfl, rfl, rfl, rfl, rfl⟩

/-- C7 (amended): for every encoded state message on which decoding succeeds, replacing one digit
of the checksum token by a different digit never lets `ExtractAppState` report success, and
tokens 1 to 8 are converted into the same field values as for the intact message: the call
returns `false`, or, only where `unsigned long` has 32 bits and the corrupted text exceeds its
range, `std::stoul` ends it with `out_of_range` after the eight fields were assigned. -/
theorem C7_checksum_digit_corruption (P : Platform) (R st : ts_app_state) (i d : Nat)
    (hok : (ExtractAppState P (FormatAppState P R) st).result = .ok true)
    (hi : i < ((SplitMessage (FormatAppState P R)).getD 8 []).length)
    (hd : d < 10)
    (hne : ((SplitMessage (FormatAppState P R)).getD 8 []).getD i '0' ≠ digitChar d) :
    (ExtractAppState P (corruptChecksumDigit (FormatAppState P R) i d) st).app_state =
      (ExtractAppState P (FormatAppState P R) st).app_state ∧
    ((ExtractAppState P (corruptChecksumDigit (FormatAppState P R) i d) st).result = .ok false ∨
      (P.ulong64 = false ∧
        (ExtractAppState P (corruptChecksumDigit (FormatAppState P R) i d) st).result =
          .error .out_of_range)) := by
  have hc := encodeChecksum_lt P R
  have hu := ULONG_MAX_ge P
  have hdl := natDigits_lt (encodeChecksum P R)
  have hlen := natDigits_length_le _ hc
  rw [SplitMessage_FormatAppState, encodeValues_getD_8] at hi hne
  unfold to_string_unsigned at hi hne
  rw [List.length_map] at hi
  have hne2 : (natDigits (encodeChecksum P R)).getD i 0 ≠ d := by
    intro h
    apply hne
    have := List.getD_map (l := natDigits (encodeChecksum P R)) (n := i) (d := 0) digitChar
    rw [h] at this
    exact this
  have hmod := ofDigits_set_mod_ne _ i d hlen hi hd hdl hne2
  rw [ofDigits_natDigits, Nat.mod_eq_of_lt hc] at hmod
  have hdl2 : ∀ x ∈ (natDigits (encodeChecksum P R)).set i d, x < 10 := by
    intro x hx
    rcases List.mem_or_eq_of_mem_set hx with h | h
    · exact hdl x h
    · omega
  have hne3 : (natDigits (encodeChecksum P R)).set i d ≠ [] := by
    intro h
    have := congrArg List.length h
    rw [List.length_set, List.length_nil] at this
    omega
  have hsmall : ofDigits 10 ((natDigits (encodeChecksum P R)).set i d) < 10 ^ 10 := by
    have h1 := ofDigits_lt _ hdl2
    rw [List.length_set] at h1
    exact lt_of_lt_of_le h1 (Nat.pow_le_pow_right (by norm_num) hlen)
  have h8c := stoul_digits P _ hne3 hdl2
  have hcor : corruptChecksumDigit (FormatAppState P R) i d =
      ConcatMessage [to_string_unsigned R.n_iterations, to_string_float R.last_error,
        to_string_float R.exploration_range, to_string_int R.app_id,
        to_string_int R.current_dataset, to_string_int R.current_model,
        to_string_int R.current_nn_mode, to_string_int R.current_expl_mode,
        ((natDigits (encodeChecksum P R)).set i d).map digitChar] := by
    unfold corruptChecksumDigit
    rw [SplitMessage_FormatAppState, encodeValues_getD_8]
    unfold to_string_unsigned
    rw [List.map_set]
    rfl
  have hsplit : SplitMessage (corruptChecksumDigit (FormatAppState P R) i d) =
      [to_string_unsigned R.n_iterations, to_string_float R.last_error,
        to_string_float R.exploration_range, to_string_int R.app_id,
        to_string_int R.current_dataset, to_string_int R.current_model,
        to_string_int R.current_nn_mode, to_string_int R.current_expl_mode,
        ((natDigits (encodeChecksum P R)).set i d).map digitChar] := by
    rw [hcor]
    apply SplitMessage_ConcatMessage _ (by simp)
    intro t ht
    simp only [List.mem_cons, List.mem_singleton, List.not_mem_nil, or_false] at ht
    rcases ht with h | h | h | h | h | h | h | h | h <;> subst h
    · exact to_string_unsigned_no_comma _
    · exact to_string_float_no_comma _
    · exact to_string_float_no_comma _
    · exact to_string_int_no_comma _
    · exact to_string_int_no_comma _
    · exact to_string_int_no_comma _
    · exact to_string_int_no_comma _
    · exact to_string_int_no_comma _
    · intro hm
      obtain ⟨x, _, hx⟩ := List.mem_map.mp hm
      exact (digitChar_props x).2.2.2 hx
  unfold ExtractAppState at hok ⊢
  rw [hsplit]
  rw [SplitMessage_FormatAppState] at hok ⊢
  unfold encodeValues at hok ⊢
  obtain ⟨a0, a1, a2, a3, a4, a5, a6, a7, a8, h0, h1, h2, h3, h4, h5, h6, h7, h8⟩ :=
    conversions_of_returned P _ _ _ _ _ _ _ _ _ st true hok
  have h8b := stoul_to_string_unsigned P (encodeChecksum P R) (by omega)
  rw [h8b] at h8
  cases h8
  rw [ExtractAppStateFields_of_parsed P _ _ _ _ _ _ _ _ _ st _ _ _ _ _ _ _ _ _
    h0 h1 h2 h3 h4 h5 h6 h7 h8b] at hok ⊢
  simp only [Except.ok.injEq] at hok
  rw [checksumMatches_iff, Nat.mod_eq_of_lt hc] at hok
  by_cases hbig : ofDigits 10 ((natDigits (encodeChecksum P R)).set i d) > P.ULONG_MAX
  · rw [if_pos hbig] at h8c
    rw [ExtractAppStateFields_of_checksum_fault P _ _ _ _ _ _ _ _ _ st _ _ _ _ _ _ _ _ _
      h0 h1 h2 h3 h4 h5 h6 h7 h8c]
    refine ⟨rfl, Or.inr ⟨?_, rfl⟩⟩
    cases hP : P.ulong64 with
    | false => rfl
    | true =>
      exfalso
      unfold Platform.ULONG_MAX at hbig
      rw [hP] at hbig
      simp only [if_true] at hbig
      omega
  · rw [if_neg hbig] at h8c
    rw [ExtractAppStateFields_of_parsed P _ _ _ _ _ _ _ _ _ st _ _ _ _ _ _ _ _ _
      h0 h1 h2 h3 h4 h5 h6 h7 h8c]
    refine ⟨rfl, Or.inl ?_⟩
    simp only [Except.ok.injEq]
    rw [Bool.eq_false_iff]
    intro hm
    rw [checksumMatches_iff, hok] at hm
    exact hmod hm.symm

set_option maxRecDepth 10000 in
/-- C7 (counterexample): with 32-bit `unsigned long`, the valid record with
`n_iterations = 3000000000` and zeros elsewhere is encoded with the checksum token `3000000000`
and decodes successfully; replacing the first digit of that token by `9` gives
`9000000000`, on which `std::stoul` throws `out_of_range`: the call does not report
`success = false`. -/
theorem C7_checksum_overflow_counterexample :
    (⟨3000000000, ⟨0⟩, ⟨0⟩, 0, 0, 0, 0, 0⟩ : ts_app_state).Valid ∧
    ExtractAppState ilp32 (FormatAppState ilp32 ⟨3000000000, ⟨0⟩, ⟨0⟩, 0, 0, 0, 0, 0⟩)
      zero_app_state = ⟨⟨3000000000, ⟨0⟩, ⟨0⟩, 0, 0, 0, 0, 0⟩, .ok true⟩ ∧
    corruptChecksumDigit (FormatAppState ilp32 ⟨3000000000, ⟨0⟩, ⟨0⟩, 0, 0, 0, 0, 0⟩) 0 9 =
      "3000000000,0.000000,0.000000,0,0,0,0,0,9000000000".toList ∧
    ExtractAppState ilp32
      (corruptChecksumDigit (FormatAppState ilp32 ⟨3000000000, ⟨0⟩, ⟨0⟩, 0, 0, 0, 0, 0⟩) 0 9)
      zero_app_state = ⟨⟨3000000000, ⟨0⟩, ⟨0⟩, 0, 0, 0, 0, 0⟩, .error .out_of_range⟩ ∧
    (ExtractAppState ilp32
      (corruptChecksumDigit (FormatAppState ilp32 ⟨3000000000, ⟨0⟩, ⟨0⟩, 0, 0, 0, 0, 0⟩) 0 9)
      zero_app_state).result ≠ .ok false := by
  decide

set_option maxRecDepth 10000 in
/-- C7 (witness): the encoded reference record `1000,0.335190,0.219480,2,2,1,1,1,37357` with the
last digit of the checksum token replaced by `8`. -/
theorem C7_checksum_digit_corruption_witness :
    (ExtractAppState ilp32 (corruptChecksumDigit (FormatAppState ilp32 ref_app_state) 4 8)
        zero_app_state).app_state =
      (ExtractAppState ilp32 (FormatAppState ilp32 ref_app_state) zero_app_state).app_state ∧
    ((ExtractAppState ilp32 (corruptChecksumDigit (FormatAppState ilp32 ref_app_state) 4 8)
        zero_app_state).result = .ok false ∨
      (ilp32.ulong64 = false ∧
        (ExtractAppState ilp32 (corruptChecksumDigit (FormatAppState ilp32 ref_app_state) 4 8)
          zero_app_state).result = .error .out_of_range)) :=
  C7_checksum_digit_corruption ilp32 ref_app_state zero_app_state 4 8
    (by decide) (by decide) (by decide) (by decide)

set_option maxRecDepth 10000 in
/-- Every replacement of one digit of the checksum token of the encoded reference record by a
different digit makes `ExtractAppState` return `false` with the reference record assigned. -/
theorem reference_checksum_flips :
    ∀ i < 5, ∀ d < 10,
      (to_string_unsigned 37357).getD i '0' ≠ digitChar d →
        ExtractAppState ilp32 (corruptChecksumDigit (FormatAppState ilp32 ref_app_state) i d)
          zero_app_state = ⟨ref_app_state, .ok false⟩ := by
  decide

/-! ## Further lemmas on splitting -/

theorem splitSpec_ne_nil (s : Str) : splitSpec s ≠ [] := by
  induction s with
  | nil => simp [splitSpec]
  | cons c cs ih =>
    simp only [splitSpec]
    split
    · simp
    · split <;> simp

theorem splitSpec_length (s : Str) : (splitSpec s).length = s.count ',' + 1 := by
  induction s with
  | nil => simp [splitSpec]
  | cons c cs ih =>
    simp only [splitSpec]
    by_cases hc : c = ','
    · rw [if_pos hc, hc]
      simp [ih]
    · rw [if_neg hc]
      have hcount : (c :: cs).count ',' = cs.count ',' := by
        rw [List.count_cons]
        simp [hc]
      rw [hcount, ← ih]
      cases hsp : splitSpec cs with
      | nil => exact absurd hsp (splitSpec_ne_nil cs)
      | cons t ts => simp

theorem splitSpec_tokens_no_comma (s : Str) : ∀ t ∈ splitSpec s, ',' ∉ t := by
  induction s with
  | nil => simp [splitSpec]
  | cons c cs ih =>
    simp only [splitSpec]
    by_cases hc : c = ','
    · rw [if_pos hc]
      intro t ht
      rcases List.mem_cons.mp ht with h | h
      · subst h
        simp
      · exact ih t h
    · rw [if_neg hc]
      cases hsp : splitSpec cs with
      | nil => exact absurd hsp (splitSpec_ne_nil cs)
      | cons u us =>
        rw [hsp] at ih
        intro t ht
        rcases List.mem_cons.mp ht with h | h
        · subst h
          intro hm
          rcases List.mem_cons.mp hm with h2 | h2
          · exact hc h2.symm
          · exact ih u (by simp) h2
        · exact ih t (List.mem_cons_of_mem _ h)

theorem joinSpec_cons_head (c : Char) (t : Str) (ts : List Str) :
    joinSpec ((c :: t) :: ts) = c :: joinSpec (t :: ts) := by
  cases ts with
  | nil => rfl
  | cons u r => rfl

theorem joinSpec_splitSpec (s : Str) : joinSpec (splitSpec s) = s := by
  induction s with
  | nil => rfl
  | cons c cs ih =>
    simp only [splitSpec]
    by_cases hc : c = ','
    · rw [if_pos hc, joinSpec_cons _ _ (splitSpec_ne_nil cs), ih, hc]
      rfl
    · rw [if_neg hc]
      cases hsp : splitSpec cs with
      | nil => exact absurd hsp (splitSpec_ne_nil cs)
      | cons u us =>
        rw [hsp] at ih
        simp only []
        rw [joinSpec_cons_head, ih]

/-- C11: for every string `s`, `SplitMessage s` has at least one token and exactly one more
token than `s` has commas; the tokens are the spans between the commas in left-to-right order
(joined with commas they give `s` back); a string without a comma gives `[s]`, and `a,,b` gives
`a`, the empty token and `b`. -/
theorem C11_split_token_count (s : Str) :
    SplitMessage s ≠ [] ∧
    (SplitMessage s).length = s.count ',' + 1 ∧
    ConcatMessage (SplitMessage s) = s ∧
    (',' ∉ s → SplitMessage s = [s]) ∧
    SplitMessage [] = [[]] ∧
    SplitMessage ['a', ',', ',', 'b'] = [['a'], [], ['b']] := by
  rw [SplitMessage_eq_splitSpec, ConcatMessage_eq_joinSpec]
  refine ⟨splitSpec_ne_nil s, splitSpec_length s, joinSpec_splitSpec s,
    splitSpec_no_comma s, by decide, by decide⟩

/-- C11 (witness): a string without a comma. -/
theorem C11_split_token_count_witness :
    ',' ∉ ['a', 'b'] ∧ SplitMessage ['a', 'b'] = [['a', 'b']] :=
  ⟨by decide, (C11_split_token_count ['a', 'b']).2.2.2.1 (by decide)⟩

/-- C12: `FormatMessageWithType t c` is the character assigned to `t`, then one comma, then `c`
unchanged; the eight characters are `j b p s q d u n`, and tagging `1,0` as a button message
gives `b,1,0`. -/
theorem C12_tag_prefixing (t : msgType) (c : Str) :
    FormatMessageWithType t c = t.toChar :: ',' :: c ∧
    [msgType.joystick, .button, .pulse_period, .slider, .state_request, .state_dump,
      .ui_info, .midi_note].map msgType.toChar = ['j', 'b', 'p', 's', 'q', 'd', 'u', 'n'] ∧
    FormatMessageWithType .button ['1', ',', '0'] = ['b', ',', '1', ',', '0'] :=
  ⟨rfl, rfl, rfl⟩

/-- C14: when the token vector does not have exactly 9 elements (or the string does not split
into exactly 9 tokens), `ExtractAppState` returns `false` and the caller's record is exactly as
it was before the call, whatever it held. -/
theorem C14_untouched_on_count_failure (P : Platform) (fields : List Str) (input : Str)
    (st : ts_app_state) :
    (fields.length ≠ 9 → ExtractAppStateFields P fields st = ⟨st, .ok false⟩) ∧
    ((SplitMessage input).length ≠ 9 → ExtractAppState P input st = ⟨st, .ok false⟩) := by
  constructor
  · intro h
    simp [ExtractAppStateFields, h]
  · intro h
    simp [ExtractAppState, ExtractAppStateFields, h]

/-- C14 (witness): eight tokens that would all convert, as a vector and as a string, with the
reference record as the prior content. -/
theorem C14_untouched_on_count_failure_witness :
    ExtractAppStateFields ilp32
      [['7'], ['7'], ['7'], ['7'], ['7'], ['7'], ['7'], ['7']] ref_app_state =
      ⟨ref_app_state, .ok false⟩ ∧
    ExtractAppState ilp32 "7,7,7,7,7,7,7,7".toList ref_app_state = ⟨ref_app_state, .ok false⟩ :=
  ⟨(C14_untouched_on_count_failure ilp32
      [['7'], ['7'], ['7'], ['7'], ['7'], ['7'], ['7'], ['7']] [] ref_app_state).1 (by decide),
   (C14_untouched_on_count_failure ilp32 [] "7,7,7,7,7,7,7,7".toList ref_app_state).2
      (by decide)⟩

/-- C18: for every string `s`, `SplitMessage s` is a non-empty list of tokens none of which
contains a comma, and joining those tokens gives `s` back. -/
theorem C18_join_undoes_split (s : Str) :
    SplitMessage s ≠ [] ∧
    (∀ t ∈ SplitMessage s, ',' ∉ t) ∧
    ConcatMessage (SplitMessage s) = s := by
  rw [SplitMessage_eq_splitSpec, ConcatMessage_eq_joinSpec]
  exact ⟨splitSpec_ne_nil s, splitSpec_tokens_no_comma s, joinSpec_splitSpec s⟩

theorem splitSpec_tagged (t : msgType) (c : Str) :
    splitSpec (FormatMessageWithType t c) = [t.toChar] :: splitSpec c := by
  have h : ',' ∉ [t.toChar] := by
    cases t <;> decide
  exact splitSpec_append_comma [t.toChar] c h

/-- C19: `SplitMessage (FormatMessageWithType t c)` is the one-character tag of `t` followed by
the tokens of `SplitMessage c`; the eight tag characters are pairwise distinct and none is a
comma, so the first token determines `t`. -/
theorem C19_tagged_message_split (t : msgType) (c : Str) :
    SplitMessage (FormatMessageWithType t c) = [t.toChar] :: SplitMessage c ∧
    t.toChar ≠ ',' ∧
    (∀ u : msgType, u.toChar = t.toChar → u = t) ∧
    (∀ (u : msgType) (e : Str),
      (SplitMessage (FormatMessageWithType u e)).head? =
        (SplitMessage (FormatMessageWithType t c)).head? → u = t) := by
  have hinj : ∀ u : msgType, u.toChar = t.toChar → u = t := by
    intro u
    cases u <;> cases t <;> decide
  refine ⟨?_, ?_, hinj, ?_⟩
  · rw [SplitMessage_eq_splitSpec, SplitMessage_eq_splitSpec, splitSpec_tagged]
  · cases t <;> decide
  · intro u e h
    rw [SplitMessage_eq_splitSpec, SplitMessage_eq_splitSpec, splitSpec_tagged,
      splitSpec_tagged] at h
    simp only [List.head?_cons, Option.some.injEq, List.cons.injEq, and_true] at h
    exact hinj u h

/-- C19 (witness): a slider message; a first token `s` can only come from the slider type. -/
theorem C19_tagged_message_split_witness :
    SplitMessage (FormatMessageWithType .slider ['4', ',', '2']) = [['s'], ['4'], ['2']] ∧
    msgType.slider = .slider :=
  ⟨by decide,
   (C19_tagged_message_split .slider ['4', ',', '2']).2.2.2 .slider [] (by decide)⟩

/-! ## Lemmas on checksum sensitivity -/

theorem stoi_range (t : Str) (v : Int) (h : stoi t = .ok v) :
    -(2 : Int) ^ 31 ≤ v ∧ v < (2 : Int) ^ 31 := by
  unfold stoi at h
  simp only at h
  split_ifs at h with h1 h2 h3 <;>
    first
    | (cases h; done)
    | (simp only [Except.ok.injEq] at h; omega)

theorem single_integer_error_detected (P : Platform) (t0 t1 t2 t3 t4 t5 t6 t7 t8 : Str)
    (st : ts_app_state) (k : Nat) (t : Str) (b : Bool) (out out2 : Outcome)
    (hk : k = 0 ∨ k = 3 ∨ k = 4 ∨ k = 5 ∨ k = 6 ∨ k = 7)
    (hout : ExtractAppStateFields P [t0, t1, t2, t3, t4, t5, t6, t7, t8] st = out)
    (hout2 : ExtractAppStateFields P ([t0, t1, t2, t3, t4, t5, t6, t7, t8].set k t) st = out2)
    (hok : out.result = .ok true) (hparse : out2.result = .ok b)
    (hdiff : out2.app_state ≠ out.app_state) : b = false := by
  rw [← hout] at hok
  obtain ⟨a0, a1, a2, a3, a4, a5, a6, a7, a8, h0, h1, h2, h3, h4, h5, h6, h7, h8⟩ :=
    conversions_of_returned P _ _ _ _ _ _ _ _ _ st true hok
  rw [ExtractAppStateFields_of_parsed P _ _ _ _ _ _ _ _ _ st _ _ _ _ _ _ _ _ _
    h0 h1 h2 h3 h4 h5 h6 h7 h8] at hout hok
  subst hout
  simp only [Except.ok.injEq] at hok
  rw [checksumMatches_iff] at hok
  have r3 := stoi_range _ _ h3
  have r6 := stoi_range _ _ h6
  have r7 := stoi_range _ _ h7
  rcases hk with rfl | rfl | rfl | rfl | rfl | rfl
  · simp only [List.set_cons_zero, List.set_cons_succ] at hout2
    cases g : stoul P t with
    | error e =>
      rw [← hout2] at hparse
      simp [ExtractAppStateFields, g] at hparse
    | ok v =>
      rw [ExtractAppStateFields_of_parsed P t t1 t2 t3 t4 t5 t6 t7 t8 st _ _ _ _ _ _ _ _ _
        g h1 h2 h3 h4 h5 h6 h7 h8] at hout2
      subst hout2
      simp only [Except.ok.injEq] at hparse
      rw [← hparse, Bool.eq_false_iff]
      intro hm
      rw [checksumMatches_iff, ← hok] at hm
      have e1 := encodeChecksum_eq_sum P (parsedRecord a0 a1 a2 a3 a4 a5 a6 a7)
      have e2 := encodeChecksum_eq_sum P (parsedRecord v a1 a2 a3 a4 a5 a6 a7)
      rw [hm] at e2
      apply hdiff
      simp only [parsedRecord, ts_app_state.mk.injEq, true_and, and_true]
      simp only [parsedRecord, intToU8] at e1 e2 ⊢
      generalize f2u P (fmulScaling a1) = F1 at e1 e2
      generalize f2u P (fmulScaling a2) = F2 at e1 e2
      omega
  · simp only [List.set_cons_zero, List.set_cons_succ] at hout2
    cases g : stoi t with
    | error e =>
      rw [← hout2] at hparse
      simp [ExtractAppStateFields, h0, h1, h2, g] at hparse
    | ok v =>
      rw [ExtractAppStateFields_of_parsed P t0 t1 t2 t t4 t5 t6 t7 t8 st _ _ _ _ _ _ _ _ _
        h0 h1 h2 g h4 h5 h6 h7 h8] at hout2
      subst hout2
      simp only [Except.ok.injEq] at hparse
      have q := stoi_range _ _ g
      rw [← hparse, Bool.eq_false_iff]
      intro hm
      rw [checksumMatches_iff, ← hok] at hm
      have e1 := encodeChecksum_eq_sum P (parsedRecord a0 a1 a2 a3 a4 a5 a6 a7)
      have e2 := encodeChecksum_eq_sum P (parsedRecord a0 a1 a2 v a4 a5 a6 a7)
      rw [hm] at e2
      apply hdiff
      simp only [parsedRecord, ts_app_state.mk.injEq, true_and, and_true]
      simp only [parsedRecord, intToU8] at e1 e2 ⊢
      generalize f2u P (fmulScaling a1) = F1 at e1 e2
      generalize f2u P (fmulScaling a2) = F2 at e1 e2
      omega
  · simp only [List.set_cons_zero, List.set_cons_succ] at hout2
    cases g : stoi t with
    | error e =>
      rw [← hout2] at hparse
      simp [ExtractAppStateFields, h0, h1, h2, h3, g] at hparse
    | ok v =>
      rw [ExtractAppStateFields_of_parsed P t0 t1 t2 t3 t t5 t6 t7 t8 st _ _ _ _ _ _ _ _ _
        h0 h1 h2 h3 g h5 h6 h7 h8] at hout2
      subst hout2
      simp only [Except.ok.injEq] at hparse
      rw [← hparse, Bool.eq_false_iff]
      intro hm
      rw [checksumMatches_iff, ← hok] at hm
      have e1 := encodeChecksum_eq_sum P (parsedRecord a0 a1 a2 a3 a4 a5 a6 a7)
      have e2 := encodeChecksum_eq_sum P (parsedRecord a0 a1 a2 a3 v a5 a6 a7)
      rw [hm] at e2
      apply hdiff
      simp only [parsedRecord, ts_app_state.mk.injEq, true_and, and_true]
      simp only [parsedRecord, intToU8] at e1 e2 ⊢
      generalize f2u P (fmulScaling a1) = F1 at e1 e2
      generalize f2u P (fmulScaling a2) = F2 at e1 e2
      omega
  · simp only [List.set_cons_zero, List.set_cons_succ] at hout2
    cases g : stoi t with
    | error e =>
      rw [← hout2] at hparse
      simp [ExtractAppStateFields, h0, h1, h2, h3, h4, g] at hparse
    | ok v =>
      rw [ExtractAppStateFields_of_parsed P t0 t1 t2 t3 t4 t t6 t7 t8 st _ _ _ _ _ _ _ _ _
        h0 h1 h2 h3 h4 g h6 h7 h8] at hout2
      subst hout2
      simp only [Except.ok.injEq] at hparse
      rw [← hparse, Bool.eq_false_iff]
      intro hm
      rw [checksumMatches_iff, ← hok] at hm
      have e1 := encodeChecksum_eq_sum P (parsedRecord a0 a1 a2 a3 a4 a5 a6 a7)
      have e2 := encodeChecksum_eq_sum P (parsedRecord a0 a1 a2 a3 a4 v a6 a7)
      rw [hm] at e2
      apply hdiff
      simp only [parsedRecord, ts_app_state.mk.injEq, true_and, and_true]
      simp only [parsedRecord, intToU8] at e1 e2 ⊢
      generalize f2u P (fmulScaling a1) = F1 at e1 e2
      generalize f2u P (fmulScaling a2) = F2 at e1 e2
      omega
  · simp only [List.set_cons_zero, List.set_cons_succ] at hout2
    cases g : stoi t with
    | error e =>
      rw [← hout2] at hparse
      simp [ExtractAppStateFields, h0, h1, h2, h3, h4, h5, g] at hparse
    | ok v =>
      rw [ExtractAppStateFields_of_parsed P t0 t1 t2 t3 t4 t5 t t7 t8 st _ _ _ _ _ _ _ _ _
        h0 h1 h2 h3 h4 h5 g h7 h8] at hout2
      subst hout2
      simp only [Except.ok.injEq] at hparse
      have q := stoi_range _ _ g
      rw [← hparse, Bool.eq_false_iff]
      intro hm
      rw [checksumMatches_iff, ← hok] at hm
      have e1 := encodeChecksum_eq_sum P (parsedRecord a0 a1 a2 a3 a4 a5 a6 a7)
      have e2 := encodeChecksum_eq_sum P (parsedRecord a0 a1 a2 a3 a4 a5 v a7)
      rw [hm] at e2
      apply hdiff
      simp only [parsedRecord, ts_app_state.mk.injEq, true_and, and_true]
      simp only [parsedRecord, intToU8] at e1 e2 ⊢
      generalize f2u P (fmulScaling a1) = F1 at e1 e2
      generalize f2u P (fmulScaling a2) = F2 at e1 e2
      omega
  · simp only [List.set_cons_zero, List.set_cons_succ] at hout2
    cases g : stoi t with
    | error e =>
      rw [← hout2] at hparse
      simp [ExtractAppStateFields, h0, h1, h2, h3, h4, h5, h6, g] at hparse
    | ok v =>
      rw [ExtractAppStateFields_of_parsed P t0 t1 t2 t3 t4 t5 t6 t t8 st _ _ _ _ _ _ _ _ _
        h0 h1 h2 h3 h4 h5 h6 g h8] at hout2
      subst hout2
      simp only [Except.ok.injEq] at hparse
      have q := stoi_range _ _ g
      rw [← hparse, Bool.eq_false_iff]
      intro hm
      rw [checksumMatches_iff, ← hok] at hm
      have e1 := encodeChecksum_eq_sum P (parsedRecord a0 a1 a2 a3 a4 a5 a6 a7)
      have e2 := encodeChecksum_eq_sum P (parsedRecord a0 a1 a2 a3 a4 a5 a6 v)
      rw [hm] at e2
      apply hdiff
      simp only [parsedRecord, ts_app_state.mk.injEq, true_and, and_true]
      simp only [parsedRecord, intToU8] at e1 e2 ⊢
      generalize f2u P (fmulScaling a1) = F1 at e1 e2
      generalize f2u P (fmulScaling a2) = F2 at e1 e2
      omega

theorem encodeChecksum_swap (P : Platform) (a0 : Nat) (a1 a2 : Float32)
    (a3 a4 a5 a6 a7 : Int) :
    encodeChecksum P (parsedRecord a0 a1 a2 a3 a5 a4 a6 a7) =
      encodeChecksum P (parsedRecord a0 a1 a2 a3 a4 a5 a6 a7) := by
  have e1 := encodeChecksum_eq_sum P (parsedRecord a0 a1 a2 a3 a5 a4 a6 a7)
  have e2 := encodeChecksum_eq_sum P (parsedRecord a0 a1 a2 a3 a4 a5 a6 a7)
  generalize encodeChecksum P (parsedRecord a0 a1 a2 a3 a5 a4 a6 a7) = c1 at e1 ⊢
  generalize encodeChecksum P (parsedRecord a0 a1 a2 a3 a4 a5 a6 a7) = c2 at e2 ⊢
  simp only [parsedRecord] at e1 e2
  generalize f2u P (fmulScaling a1) = F1 at e1 e2
  generalize f2u P (fmulScaling a2) = F2 at e1 e2
  omega

/-- C15: take nine tokens on which `ExtractAppState` succeeds and replace exactly one of the
integer field tokens (token 1, 4, 5, 6, 7 or 8; index `k` is `0, 3, 4, 5, 6, 7`) so that all
conversions still succeed and the record assigned differs from the one assigned for the original
tokens: then `ExtractAppState` returns `false`, for the token vector and for any string that
splits into it. -/
theorem C15_single_integer_error_detected (P : Platform) (t0 t1 t2 t3 t4 t5 t6 t7 t8 : Str)
    (st : ts_app_state) (k : Nat) (t : Str) (b : Bool)
    (hk : k = 0 ∨ k = 3 ∨ k = 4 ∨ k = 5 ∨ k = 6 ∨ k = 7)
    (hok : (ExtractAppStateFields P [t0, t1, t2, t3, t4, t5, t6, t7, t8] st).result = .ok true)
    (hparse : (ExtractAppStateFields P ([t0, t1, t2, t3, t4, t5, t6, t7, t8].set k t)
      st).result = .ok b)
    (hdiff : (ExtractAppStateFields P ([t0, t1, t2, t3, t4, t5, t6, t7, t8].set k t)
        st).app_state ≠
      (ExtractAppStateFields P [t0, t1, t2, t3, t4, t5, t6, t7, t8] st).app_state) :
    (ExtractAppStateFields P ([t0, t1, t2, t3, t4, t5, t6, t7, t8].set k t) st).result =
      .ok false ∧
    (∀ m2 : Str, SplitMessage m2 = [t0, t1, t2, t3, t4, t5, t6, t7, t8].set k t →
      (ExtractAppState P m2 st).result = .ok false) := by
  have hb : b = false :=
    single_integer_error_detected P t0 t1 t2 t3 t4 t5 t6 t7 t8 st k t b
      (ExtractAppStateFields P [t0, t1, t2, t3, t4, t5, t6, t7, t8] st)
      (ExtractAppStateFields P ([t0, t1, t2, t3, t4, t5, t6, t7, t8].set k t) st)
      hk rfl rfl hok hparse hdiff
  rw [hb] at hparse
  refine ⟨hparse, ?_⟩
  intro m2 hm2
  unfold ExtractAppState
  rw [hm2]
  exact hparse

set_option maxRecDepth 10000 in
/-- C15 (witness): the encoded reference record with token 5 (`current_dataset`) changed from `2`
to `3`. -/
theorem C15_single_integer_error_detected_witness :
    (ExtractAppState ilp32 "1000,0.335190,0.219480,2,3,1,1,1,37357".toList
      zero_app_state).result = .ok false :=
  (C15_single_integer_error_detected ilp32 "1000".toList "0.335190".toList "0.219480".toList
    "2".toList "2".toList "1".toList "1".toList "1".toList "37357".toList zero_app_state
    4 "3".toList false (by decide) (by decide) (by decide) (by decide)).2
    "1000,0.335190,0.219480,2,3,1,1,1,37357".toList (by decide)

/-- C16: when `ExtractAppState` succeeds on nine tokens, it also succeeds on the same tokens with
tokens 5 and 6 exchanged, and the record assigned is the original one with `current_dataset` and
`current_model` exchanged; that record differs from the original whenever the two values
differ. The same holds for strings that split into these tokens. -/
theorem C16_swapped_tokens_accepted (P : Platform) (t0 t1 t2 t3 t4 t5 t6 t7 t8 : Str)
    (st : ts_app_state)
    (hok : (ExtractAppStateFields P [t0, t1, t2, t3, t4, t5, t6, t7, t8] st).result =
      .ok true) :
    ExtractAppStateFields P [t0, t1, t2, t3, t5, t4, t6, t7, t8] st =
      ⟨{ (ExtractAppStateFields P [t0, t1, t2, t3, t4, t5, t6, t7, t8] st).app_state with
          current_dataset :=
            (ExtractAppStateFields P [t0, t1, t2, t3, t4, t5, t6, t7, t8]
              st).app_state.current_model
          current_model :=
            (ExtractAppStateFields P [t0, t1, t2, t3, t4, t5, t6, t7, t8]
              st).app_state.current_dataset },
        .ok true⟩ ∧
    ((ExtractAppStateFields P [t0, t1, t2, t3, t4, t5, t6, t7, t8] st).app_state.current_dataset ≠
        (ExtractAppStateFields P [t0, t1, t2, t3, t4, t5, t6, t7, t8]
          st).app_state.current_model →
      (ExtractAppStateFields P [t0, t1, t2, t3, t5, t4, t6, t7, t8] st).app_state ≠
        (ExtractAppStateFields P [t0, t1, t2, t3, t4, t5, t6, t7, t8] st).app_state) ∧
    (∀ m m2 : Str, SplitMessage m = [t0, t1, t2, t3, t4, t5, t6, t7, t8] →
      SplitMessage m2 = [t0, t1, t2, t3, t5, t4, t6, t7, t8] →
      (ExtractAppState P m st).result = .ok true ∧
        (ExtractAppState P m2 st).result = .ok true) := by
  obtain ⟨a0, a1, a2, a3, a4, a5, a6, a7, a8, h0, h1, h2, h3, h4, h5, h6, h7, h8⟩ :=
    conversions_of_returned P _ _ _ _ _ _ _ _ _ st true hok
  have hx := ExtractAppStateFields_of_parsed P t0 t1 t2 t3 t4 t5 t6 t7 t8 st _ _ _ _ _ _ _ _ _
    h0 h1 h2 h3 h4 h5 h6 h7 h8
  have hy := ExtractAppStateFields_of_parsed P t0 t1 t2 t3 t5 t4 t6 t7 t8 st _ _ _ _ _ _ _ _ _
    h0 h1 h2 h3 h5 h4 h6 h7 h8
  have hok2 := hok
  rw [hx] at hok2
  simp only [Except.ok.injEq] at hok2
  have hm := (checksumMatches_iff P _ _).mp hok2
  have hm2 : checksumMatches P (parsedRecord a0 a1 a2 a3 a5 a4 a6 a7) (a8 % 2 ^ 32) = true := by
    rw [checksumMatches_iff, encodeChecksum_swap, hm]
  rw [hm2] at hy
  have hstr : ∀ m m2 : Str, SplitMessage m = [t0, t1, t2, t3, t4, t5, t6, t7, t8] →
      SplitMessage m2 = [t0, t1, t2, t3, t5, t4, t6, t7, t8] →
      (ExtractAppState P m st).result = .ok true ∧
        (ExtractAppState P m2 st).result = .ok true := by
    intro m m2 e1 e2
    unfold ExtractAppState
    rw [e1, e2]
    constructor
    · exact hok
    · rw [hy]
  refine ⟨?_, ?_, hstr⟩
  · generalize ExtractAppStateFields P [t0, t1, t2, t3, t5, t4, t6, t7, t8] st = out2 at hy ⊢
    subst hy
    rw [hx]
    rfl
  · intro hne
    generalize ExtractAppStateFields P [t0, t1, t2, t3, t5, t4, t6, t7, t8] st = out2 at hy ⊢
    subst hy
    rw [hx] at hne ⊢
    intro heq
    apply hne
    have := congrArg ts_app_state.current_model heq
    simpa [parsedRecord] using this

set_option maxRecDepth 10000 in
/-- C16 (witness): the encoded reference record, with `current_dataset = 2` and
`current_model = 1`, and the same message with tokens 5 and 6 exchanged. -/
theorem C16_swapped_tokens_accepted_witness :
    (ExtractAppState ilp32 "1000,0.335190,0.219480,2,1,2,1,1,37357".toList
      zero_app_state).result = .ok true :=
  ((C16_swapped_tokens_accepted ilp32 "1000".toList "0.335190".toList "0.219480".toList
    "2".toList "2".toList "1".toList "1".toList "1".toList "37357".toList zero_app_state
    (by decide)).2.2
    "1000,0.335190,0.219480,2,2,1,1,1,37357".toList
    "1000,0.335190,0.219480,2,1,2,1,1,37357".toList (by decide) (by decide)).2

/-! ## Lemmas on `stof` -/

theorem stof_of_ratio (P : Platform) (s rest : Str) (neg : Bool) (num den : Nat)
    (h1 : takeSign (skipSpace s) = (neg, rest))
    (h2 : floatLit rest = some (.ratio num den))
    (h3 : roundMag num den < 2 ^ 128 * 2 ^ 149)
    (h4 : 2 ^ 23 ≤ roundMag num den ∨ num * 2 ^ 149 % den = 0) :
    stof P s = .ok (withSign neg (encodeMag (roundMag num den))) := by
  unfold stof
  rw [h1]
  simp only [h2]
  rw [if_neg (by omega)]
  have hc : (P.underflow_erange && decide (roundMag num den < 2 ^ 23) &&
      decide (num * 2 ^ 149 % den ≠ 0)) = false := by
    rcases h4 with h | h
    · have : decide (roundMag num den < 2 ^ 23) = false := by
        rw [decide_eq_false_iff_not]
        omega
      rw [this]
      simp
    · have : decide (num * 2 ^ 149 % den ≠ 0) = false := by
        rw [decide_eq_false_iff_not]
        exact fun hn => hn h
      rw [this]
      simp
  rw [hc]
  simp

set_option maxRecDepth 10000 in
theorem stof_0_335190 (P : Platform) :
    stof P ['0', '.', '3', '3', '5', '1', '9', '0'] = .ok ⟨0x3eab9e06⟩ := by
  rw [stof_of_ratio P _ ['0', '.', '3', '3', '5', '1', '9', '0'] false 335190 1000000
    (by decide) (by decide) (by decide) (Or.inl (by decide))]
  decide

set_option maxRecDepth 10000 in
theorem stof_0_219480 (P : Platform) :
    stof P ['0', '.', '2', '1', '9', '4', '8', '0'] = .ok ⟨0x3e60bf5d⟩ := by
  rw [stof_of_ratio P _ ['0', '.', '2', '1', '9', '4', '8', '0'] false 219480 1000000
    (by decide) (by decide) (by decide) (Or.inl (by decide))]
  decide

set_option maxRecDepth 10000 in
theorem stoul_small (P : Platform) :
    stoul P ['1', '0', '0', '0'] = .ok 1000 ∧ stoul P ['3', '0', '6', '0'] = .ok 3060 ∧
      stoul P ['3', '7', '3', '5', '7'] = .ok 37357 := by
  have hu := ULONG_MAX_ge P
  have e1 : to_string_unsigned 1000 = ['1', '0', '0', '0'] := by decide
  have e2 : to_string_unsigned 3060 = ['3', '0', '6', '0'] := by decide
  have e3 : to_string_unsigned 37357 = ['3', '7', '3', '5', '7'] := by decide
  refine ⟨?_, ?_, ?_⟩
  · rw [← e1]
    exact stoul_to_string_unsigned P 1000 (by omega)
  · rw [← e2]
    exact stoul_to_string_unsigned P 3060 (by omega)
  · rw [← e3]
    exact stoul_to_string_unsigned P 37357 (by omega)

theorem encodeChecksum_example (P : Platform) :
    encodeChecksum P (parsedRecord 1000 ⟨0x3eab9e06⟩ ⟨0x3e60bf5d⟩ 1 2 1 1 2) = 37357 := by
  have h1 : f2u P (fmulScaling ⟨0x3eab9e06⟩) = 33519 * 65536 / 100000 := f2u_ref_last_error P
  have h2 : f2u P (fmulScaling ⟨0x3e60bf5d⟩) = 21948 * 65536 / 100000 :=
    f2u_ref_exploration_range P
  unfold encodeChecksum parsedRecord
  simp only []
  rw [h1, h2]
  decide

set_option maxRecDepth 10000 in
/-- C13 (counterexample): the documented example message splits into 9 tokens that all convert,
but `ExtractAppState` returns `false` on it, with 32-bit and with 64-bit `unsigned long`: it is
not accepted. -/
theorem C13_example_rejected_counterexample :
    (SplitMessage "1000,0.335190,0.219480,1,2,1,1,2,3060".toList).length = 9 ∧
    (ExtractAppState ilp32 "1000,0.335190,0.219480,1,2,1,1,2,3060".toList
      zero_app_state).result = .ok false ∧
    (ExtractAppState lp64 "1000,0.335190,0.219480,1,2,1,1,2,3060".toList
      zero_app_state).result = .ok false ∧
    (ExtractAppState ilp32 "1000,0.335190,0.219480,1,2,1,1,2,3060".toList
      zero_app_state).result ≠ .ok true := by
  decide

set_option maxRecDepth 10000 in
/-- C13 (amended): the documented example message `1000,0.335190,0.219480,1,2,1,1,2,3060` splits
into exactly 9 tokens, all of which convert, and decoding assigns the record
`{1000, 0.33519, 0.21948, 1, 2, 1, 1, 2}`; the checksum of these eight fields is `37357`, not
`3060`, so `ExtractAppState` returns `false` on it, and it returns `true` on the same message
with `37357` as its ninth token. This holds on every platform and for every prior record. -/
theorem C13_documented_example (P : Platform) (st : ts_app_state) :
    (SplitMessage "1000,0.335190,0.219480,1,2,1,1,2,3060".toList).length = 9 ∧
    ExtractAppState P "1000,0.335190,0.219480,1,2,1,1,2,3060".toList st =
      ⟨⟨1000, ⟨0x3eab9e06⟩, ⟨0x3e60bf5d⟩, 1, 2, 1, 1, 2⟩, .ok false⟩ ∧
    specChecksum P ⟨1000, ⟨0x3eab9e06⟩, ⟨0x3e60bf5d⟩, 1, 2, 1, 1, 2⟩ = 37357 ∧
    ExtractAppState P "1000,0.335190,0.219480,1,2,1,1,2,37357".toList st =
      ⟨⟨1000, ⟨0x3eab9e06⟩, ⟨0x3e60bf5d⟩, 1, 2, 1, 1, 2⟩, .ok true⟩ := by
  have hs1 : SplitMessage "1000,0.335190,0.219480,1,2,1,1,2,3060".toList =
      [['1', '0', '0', '0'], ['0', '.', '3', '3', '5', '1', '9', '0'],
       ['0', '.', '2', '1', '9', '4', '8', '0'], ['1'], ['2'], ['1'], ['1'], ['2'],
       ['3', '0', '6', '0']] := by decide
  have hs2 : SplitMessage "1000,0.335190,0.219480,1,2,1,1,2,37357".toList =
      [['1', '0', '0', '0'], ['0', '.', '3', '3', '5', '1', '9', '0'],
       ['0', '.', '2', '1', '9', '4', '8', '0'], ['1'], ['2'], ['1'], ['1'], ['2'],
       ['3', '7', '3', '5', '7']] := by decide
  have i1 : stoi ['1'] = .ok 1 := by decide
  have i2 : stoi ['2'] = .ok 2 := by decide
  have hrec : parsedRecord 1000 ⟨0x3eab9e06⟩ ⟨0x3e60bf5d⟩ 1 2 1 1 2 =
      ⟨1000, ⟨0x3eab9e06⟩, ⟨0x3e60bf5d⟩, 1, 2, 1, 1, 2⟩ := by decide
  have hc := encodeChecksum_example P
  have hm1 : checksumMatches P (parsedRecord 1000 ⟨0x3eab9e06⟩ ⟨0x3e60bf5d⟩ 1 2 1 1 2)
      (3060 % 2 ^ 32) = false := by
    rw [Bool.eq_false_iff]
    intro h
    rw [checksumMatches_iff, hc] at h
    exact absurd h (by decide)
  have hm2 : checksumMatches P (parsedRecord 1000 ⟨0x3eab9e06⟩ ⟨0x3e60bf5d⟩ 1 2 1 1 2)
      (37357 % 2 ^ 32) = true := by
    rw [checksumMatches_iff, hc]
    decide
  refine ⟨?_, ?_, ?_, ?_⟩
  · rw [hs1]
    rfl
  · unfold ExtractAppState
    rw [hs1, ExtractAppStateFields_of_parsed P _ _ _ _ _ _ _ _ _ st _ _ _ _ _ _ _ _ _
      (stoul_small P).1 (stof_0_335190 P) (stof_0_219480 P) i1 i2 i1 i1 i2 (stoul_small P).2.1,
      hm1, hrec]
  · rw [specChecksum_eq, ← hrec, hc]
  · unfold ExtractAppState
    rw [hs2, ExtractAppStateFields_of_parsed P _ _ _ _ _ _ _ _ _ st _ _ _ _ _ _ _ _ _
      (stoul_small P).1 (stof_0_335190 P) (stof_0_219480 P) i1 i2 i1 i1 i2 (stoul_small P).2.2,
      hm2, hrec]

/-! ## Lemmas on rounding -/

theorem ilog2_go_spec (fuel : Nat) :
    ∀ n, 0 < n → n ≤ fuel → 2 ^ ilog2.go fuel n ≤ n ∧ n < 2 ^ (ilog2.go fuel n + 1) := by
  induction fuel with
  | zero => intro n h1 h2; omega
  | succ fuel ih =>
    intro n h1 h2
    simp only [ilog2.go]
    split
    · simp
      omega
    · have := ih (n / 2) (by omega) (by omega)
      rw [pow_succ, pow_succ]
      omega

theorem ilog2_spec (n : Nat) (h : 0 < n) : 2 ^ ilog2 n ≤ n ∧ n < 2 ^ (ilog2 n + 1) :=
  ilog2_go_spec n n h (le_refl n)

theorem roundHalfEven_ge (a b : Nat) : a / b ≤ roundHalfEven a b := by
  unfold roundHalfEven
  simp only
  split_ifs <;> omega

theorem roundHalfEven_le (a b : Nat) : roundHalfEven a b ≤ a / b + 1 := by
  unfold roundHalfEven
  simp only
  split_ifs <;> omega

theorem roundHalfEven_of_lt_half (a b : Nat) (h : 2 * (a % b) < b) :
    roundHalfEven a b = a / b := by
  unfold roundHalfEven
  simp only
  rw [if_pos h]

theorem roundHalfEven_zero (b : Nat) : roundHalfEven 0 b = 0 := by
  unfold roundHalfEven
  simp

/-- The rounded magnitude stays finite when the fraction is below the midpoint between the
largest finite value and `2 ^ 128`. -/
theorem roundMag_lt (num den : Nat)
    (h : 2 * (num * 2 ^ 149) < den * ((2 ^ 25 - 1) * 2 ^ 253)) :
    roundMag num den < 2 ^ 128 * 2 ^ 149 := by
  unfold roundMag
  simp only
  set S := num * 2 ^ 149 with hS
  by_cases hq : S / den < 2 ^ 24
  · rw [if_pos hq]
    have := roundHalfEven_le S den
    have h2 : (2 : Nat) ^ 24 + 1 < 2 ^ 128 * 2 ^ 149 := by norm_num
    omega
  · rw [if_neg hq]
    have hqpos : 0 < S / den := by
      have : (0 : Nat) < 2 ^ 24 := by norm_num
      omega
    obtain ⟨hl1, hl2⟩ := ilog2_spec (S / den) hqpos
    set L := ilog2 (S / den) with hL
    have hL24 : 24 ≤ L := by
      by_contra hc
      have : L + 1 ≤ 24 := by omega
      have := Nat.pow_le_pow_right (show 0 < 2 by norm_num) this
      omega
    -- the quotient is below `2 ^ 277`
    have hqlt : S / den < 2 ^ 24 * 2 ^ 253 := by
      apply Nat.div_lt_of_lt_mul
      have : den * ((2 ^ 25 - 1) * 2 ^ 253) ≤ 2 * (den * (2 ^ 24 * 2 ^ 253)) := by
        have : (2 ^ 25 - 1) * 2 ^ 253 ≤ 2 * (2 ^ 24 * 2 ^ 253) := by norm_num
        calc den * ((2 ^ 25 - 1) * 2 ^ 253) ≤ den * (2 * (2 ^ 24 * 2 ^ 253)) :=
              Nat.mul_le_mul_left _ this
          _ = 2 * (den * (2 ^ 24 * 2 ^ 253)) := by ring
      omega
    have hL276 : L ≤ 276 := by
      by_contra hc
      have : 277 ≤ L := by omega
      have h277 := Nat.pow_le_pow_right (show 0 < 2 by norm_num) this
      have e : (2 : Nat) ^ 277 = 2 ^ 24 * 2 ^ 253 := by rw [← pow_add]
      omega
    set k := L - 23 with hk
    have hk1 : 1 ≤ k := by omega
    have hLk : L = k + 23 := by omega
    -- the quotient by `den * 2 ^ k`
    have hdiv : S / (den * 2 ^ k) = S / den / 2 ^ k := (Nat.div_div_eq_div_mul _ _ _).symm
    have hupper : S / (den * 2 ^ k) < 2 ^ 24 := by
      rw [hdiv]
      apply Nat.div_lt_of_lt_mul
      have : (2 : Nat) ^ (L + 1) = 2 ^ k * 2 ^ 24 := by
        rw [← pow_add]
        congr 1
        omega
      omega
    have hN := roundHalfEven_le S (den * 2 ^ k)
    by_cases hk253 : k ≤ 252
    · have h1 : roundHalfEven S (den * 2 ^ k) * 2 ^ k ≤ 2 ^ 24 * 2 ^ 252 :=
        Nat.mul_le_mul (by omega) (Nat.pow_le_pow_right (by norm_num) hk253)
      have h2 : (2 : Nat) ^ 24 * 2 ^ 252 < 2 ^ 128 * 2 ^ 149 := by norm_num
      omega
    · have hk' : k = 253 := by omega
      rw [hk'] at hupper hN ⊢
      have hN2 : roundHalfEven S (den * 2 ^ 253) ≤ 2 ^ 24 - 1 := by
        by_cases hq2 : S / (den * 2 ^ 253) = 2 ^ 24 - 1
        · have hmod := Nat.div_add_mod S (den * 2 ^ 253)
          rw [hq2] at hmod
          have hlt : 2 * (S % (den * 2 ^ 253)) < den * 2 ^ 253 := by
            have e : den * ((2 ^ 25 - 1) * 2 ^ 253) = (2 ^ 25 - 1) * (den * 2 ^ 253) := by ring
            rw [e] at h
            generalize den * 2 ^ 253 = D at hmod h ⊢
            generalize S % D = r at hmod ⊢
            norm_num at hmod h ⊢
            omega
          rw [roundHalfEven_of_lt_half _ _ hlt, hq2]
        · omega
      have h1 : roundHalfEven S (den * 2 ^ 253) * 2 ^ 253 ≤ (2 ^ 24 - 1) * 2 ^ 253 :=
        Nat.mul_le_mul_right _ hN2
      have h2 : ((2 : Nat) ^ 24 - 1) * 2 ^ 253 < 2 ^ 128 * 2 ^ 149 := by norm_num
      omega

/-- A fraction of at least `2 ^ (-125)` rounds to a normal magnitude. -/
theorem roundMag_ge (num den : Nat) (hden : 0 < den) (h : den * 2 ^ 24 ≤ num * 2 ^ 149) :
    2 ^ 23 ≤ roundMag num den := by
  unfold roundMag
  simp only
  set S := num * 2 ^ 149 with hS
  have hq : 2 ^ 24 ≤ S / den := by
    rw [Nat.le_div_iff_mul_le hden]
    rw [Nat.mul_comm]
    exact h
  rw [if_neg (by omega)]
  have hqpos : 0 < S / den := by
    have : (0 : Nat) < 2 ^ 24 := by norm_num
    omega
  obtain ⟨hl1, hl2⟩ := ilog2_spec (S / den) hqpos
  set L := ilog2 (S / den) with hL
  have hL24 : 24 ≤ L := by
    by_contra hc
    have : L + 1 ≤ 24 := by omega
    have := Nat.pow_le_pow_right (show 0 < 2 by norm_num) this
    omega
  set k := L - 23 with hk
  have hdiv : S / (den * 2 ^ k) = S / den / 2 ^ k := (Nat.div_div_eq_div_mul _ _ _).symm
  have hlower : 2 ^ 23 ≤ S / (den * 2 ^ k) := by
    rw [hdiv, Nat.le_div_iff_mul_le (by positivity)]
    have : (2 : Nat) ^ L = 2 ^ 23 * 2 ^ k := by
      rw [← pow_add]
      congr 1
      omega
    omega
  have hN := roundHalfEven_ge S (den * 2 ^ k)
  have hk0 : 1 ≤ 2 ^ k := Nat.one_le_two_pow
  calc 2 ^ 23 ≤ roundHalfEven S (den * 2 ^ k) := by omega
    _ = roundHalfEven S (den * 2 ^ k) * 1 := by ring
    _ ≤ roundHalfEven S (den * 2 ^ k) * 2 ^ k := Nat.mul_le_mul_left _ hk0

/-! ## `stof` on the text written by `to_string_float` -/

theorem digitChar_not_letter (d : Nat) :
    (digitChar d).toLower ≠ 'i' ∧ (digitChar d).toLower ≠ 'n' ∧
      (digitChar d).toLower ≠ 'x' := by
  unfold digitChar
  split <;> decide

theorem spanDigits_digits_point (ds : List Nat) (r : Str) (h : ∀ d ∈ ds, d < 10) :
    spanDigits digitVal? (ds.map digitChar ++ '.' :: r) = (ds, '.' :: r) := by
  induction ds with
  | nil =>
    have hp : digitVal? '.' = none := by decide
    simp [spanDigits, hp]
  | cons d ds ih =>
    have hd : d < 10 := h d (by simp)
    have hds : ∀ x ∈ ds, x < 10 := fun x hx => h x (List.mem_cons_of_mem _ hx)
    simp [spanDigits, digitVal_digitChar d hd, ih hds]

theorem ofDigits_append (xs ys : List Nat) :
    ofDigits 10 (xs ++ ys) = ofDigits 10 xs * 10 ^ ys.length + ofDigits 10 ys := by
  have h := ofDigits_foldl 10 ys (ofDigits 10 xs)
  unfold ofDigits at h ⊢
  rw [List.foldl_append, h]

theorem pad6_eq_map (n : Nat) :
    pad6 n = [n / 100000 % 10, n / 10000 % 10, n / 1000 % 10, n / 100 % 10, n / 10 % 10,
      n % 10].map digitChar := rfl

theorem pad6_digits_lt (n : Nat) :
    ∀ d ∈ [n / 100000 % 10, n / 10000 % 10, n / 1000 % 10, n / 100 % 10, n / 10 % 10, n % 10],
      d < 10 := by
  intro d hd
  simp only [List.mem_cons, List.mem_singleton, List.not_mem_nil, or_false] at hd
  omega

theorem pad6_value (n : Nat) (h : n < 10 ^ 6) :
    ofDigits 10 [n / 100000 % 10, n / 10000 % 10, n / 1000 % 10, n / 100 % 10, n / 10 % 10,
      n % 10] = n := by
  simp only [ofDigits, List.foldl_cons, List.foldl_nil]
  norm_num at h
  omega

theorem decimalLit_fixed (ds : List Nat) (fp : Nat) (h : ∀ d ∈ ds, d < 10)
    (hfp : fp < 10 ^ 6) :
    decimalLit (ds.map digitChar ++ '.' :: pad6 fp) =
      some (.ratio (ofDigits 10 ds * 10 ^ 6 + fp) (10 ^ 6)) := by
  unfold decimalLit
  simp only [spanDigits_digits_point ds _ h, afterPoint, if_true]
  rw [pad6_eq_map, spanDigits_map_digitChar _ (pad6_digits_lt fp)]
  simp only
  have hne2 : ds ++ [fp / 100000 % 10, fp / 10000 % 10, fp / 1000 % 10, fp / 100 % 10,
      fp / 10 % 10, fp % 10] ≠ [] := by simp
  rw [if_neg hne2, ofDigits_append, pad6_value fp hfp]
  have e1 : [fp / 100000 % 10, fp / 10000 % 10, fp / 1000 % 10, fp / 100 % 10, fp / 10 % 10,
      fp % 10].length = 6 := rfl
  have e2 : takeExponent 'e' [] = 0 := rfl
  have e3 : ¬ (0 ≤ (0 : Int) - ((6 : Nat) : Int)) := by omega
  have e4 : (-((0 : Int) - ((6 : Nat) : Int))).toNat = 6 := by omega
  rw [e1, e2]
  unfold scaleLit
  rw [if_neg e3, e4]

theorem floatLit_fixed (ds : List Nat) (fp : Nat) (hne : ds ≠ []) (h : ∀ d ∈ ds, d < 10)
    (hfp : fp < 10 ^ 6) :
    floatLit (ds.map digitChar ++ '.' :: pad6 fp) =
      some (.ratio (ofDigits 10 ds * 10 ^ 6 + fp) (10 ^ 6)) := by
  have hd := decimalLit_fixed ds fp h hfp
  have hpoint : Char.toLower '.' ≠ 'x' := by decide
  cases ds with
  | nil => exact absurd rfl hne
  | cons d ds =>
    obtain ⟨n1, n2, n3⟩ := digitChar_not_letter d
    have h1 : startsWithCI ['i', 'n', 'f'] ((d :: ds).map digitChar ++ '.' :: pad6 fp) =
        false := by
      simp [startsWithCI, n1]
    have h2 : startsWithCI ['n', 'a', 'n'] ((d :: ds).map digitChar ++ '.' :: pad6 fp) =
        false := by
      simp [startsWithCI, n2]
    have h3 : startsWithCI ['0', 'x'] ((d :: ds).map digitChar ++ '.' :: pad6 fp) = false := by
      cases ds with
      | nil => simp [startsWithCI, hpoint]
      | cons e es =>
        have := (digitChar_not_letter e).2.2
        simp [startsWithCI, this]
    unfold floatLit
    rw [h1, h2, h3]
    simp only [Bool.false_eq_true, if_false]
    exact hd

theorem mag_le_of_finite (x : Float32) (h1 : x.isNaN = false) (h2 : x.isInf = false) :
    x.mag ≤ (2 ^ 24 - 1) * 2 ^ 253 := by
  have hfrac : x.frac < 2 ^ 23 := Nat.mod_lt _ (by norm_num)
  have hexpo : x.expo < 256 := Nat.mod_lt _ (by norm_num)
  have hne : x.expo ≠ 255 := by
    intro he
    unfold Float32.isNaN at h1
    unfold Float32.isInf at h2
    rw [he] at h1 h2
    by_cases hf : x.frac = 0
    · simp [hf] at h2
    · simp [hf] at h1
  unfold Float32.mag
  split
  · have : (2 : Nat) ^ 23 ≤ (2 ^ 24 - 1) * 2 ^ 253 := by norm_num
    omega
  · have hp : 2 ^ (x.expo - 1) ≤ 2 ^ 253 := Nat.pow_le_pow_right (by norm_num) (by omega)
    exact Nat.mul_le_mul (by omega) hp

theorem skipSpace_digit_cons (d : Nat) (r : Str) :
    skipSpace (digitChar d :: r) = digitChar d :: r := by
  simp [skipSpace, (digitChar_props d).1]

theorem takeSign_digit_cons (d : Nat) (r : Str) :
    takeSign (digitChar d :: r) = (false, digitChar d :: r) := by
  simp [takeSign, (digitChar_props d).2.1, (digitChar_props d).2.2.1]

theorem stof_nan_inf (P : Platform) :
    stof P ['n', 'a', 'n'] = .ok (Float32.quietNaN false) ∧
    stof P ['-', 'n', 'a', 'n'] = .ok (Float32.quietNaN true) ∧
    stof P ['i', 'n', 'f'] = .ok (Float32.infinity false) ∧
    stof P ['-', 'i', 'n', 'f'] = .ok (Float32.infinity true) :=
  ⟨rfl, rfl, rfl, rfl⟩

/-- `std::stof` never faults on a text written by `std::to_string(float)`. -/
theorem stof_to_string_float (P : Platform) (x : Float32) :
    ∃ y, stof P (to_string_float x) = .ok y := by
  unfold to_string_float
  simp only
  by_cases hn : x.isNaN = true
  · rw [if_pos hn]
    cases x.sign
    · exact ⟨_, (stof_nan_inf P).1⟩
    · exact ⟨_, (stof_nan_inf P).2.1⟩
  rw [if_neg hn]
  by_cases hi : x.isInf = true
  · rw [if_pos hi]
    cases x.sign
    · exact ⟨_, (stof_nan_inf P).2.2.1⟩
    · exact ⟨_, (stof_nan_inf P).2.2.2⟩
  rw [if_neg hi]
  have hmag := mag_le_of_finite x (by simpa using hn) (by simpa using hi)
  generalize x.mag = m at hmag
  set r := roundHalfEven (m * 10 ^ 6) (2 ^ 149) with hr
  have hrle : r * 2 ^ 149 ≤ m * 10 ^ 6 + 2 ^ 149 := by
    have h1 := roundHalfEven_le (m * 10 ^ 6) (2 ^ 149)
    have h2 := Nat.div_mul_le_self (m * 10 ^ 6) (2 ^ 149)
    calc r * 2 ^ 149 ≤ (m * 10 ^ 6 / 2 ^ 149 + 1) * 2 ^ 149 := Nat.mul_le_mul_right _ h1
      _ = m * 10 ^ 6 / 2 ^ 149 * 2 ^ 149 + 2 ^ 149 := by ring
      _ ≤ m * 10 ^ 6 + 2 ^ 149 := by omega
  have hlit := floatLit_fixed (natDigits (r / 10 ^ 6)) (r % 10 ^ 6) (natDigits_ne_nil _)
    (natDigits_lt _) (Nat.mod_lt _ (by norm_num))
  rw [ofDigits_natDigits, Nat.div_add_mod' r (10 ^ 6)] at hlit
  have h3 : roundMag r (10 ^ 6) < 2 ^ 128 * 2 ^ 149 := by
    apply roundMag_lt
    have e1 : m * 10 ^ 6 ≤ (2 ^ 24 - 1) * 2 ^ 253 * 10 ^ 6 := Nat.mul_le_mul_right _ hmag
    have e2 : 2 * ((2 ^ 24 - 1) * 2 ^ 253 * 10 ^ 6 + 2 ^ 149) <
        10 ^ 6 * ((2 ^ 25 - 1) * 2 ^ 253) := by norm_num
    omega
  have h4 : 2 ^ 23 ≤ roundMag r (10 ^ 6) ∨ r * 2 ^ 149 % 10 ^ 6 = 0 := by
    by_cases hr0 : r = 0
    · right
      rw [hr0]
      simp
    · left
      apply roundMag_ge _ _ (by norm_num)
      have e1 : 1 * 2 ^ 149 ≤ r * 2 ^ 149 := Nat.mul_le_mul_right _ (by omega)
      have e2 : 10 ^ 6 * 2 ^ 24 ≤ 1 * 2 ^ 149 := by norm_num
      omega
  obtain ⟨d, ds, hds⟩ : ∃ d ds, natDigits (r / 10 ^ 6) = d :: ds := by
    cases hnd : natDigits (r / 10 ^ 6) with
    | nil => exact absurd hnd (natDigits_ne_nil _)
    | cons d ds => exact ⟨d, ds, rfl⟩
  unfold to_string_unsigned
  cases x.sign
  · refine ⟨_, stof_of_ratio P _ _ false r (10 ^ 6) ?_ hlit h3 h4⟩
    simp only [Bool.false_eq_true, if_false, List.nil_append]
    rw [hds]
    simp only [List.map_cons, List.cons_append]
    rw [skipSpace_digit_cons, takeSign_digit_cons]
  · refine ⟨_, stof_of_ratio P _ _ true r (10 ^ 6) ?_ hlit h3 h4⟩
    simp only [if_true, List.cons_append, List.nil_append, List.append_assoc]
    rw [skipSpace_minus, takeSign_minus]

/-- C17: for every valid record `R`, whatever its two float fields are, `ExtractAppState` on
`FormatAppState R` ends without a fault (it returns `true` or `false`) and the six integer-valued
fields of the record it fills are exactly those of `R`. -/
theorem C17_integer_fields_round_trip (P : Platform) (R st : ts_app_state) (hR : R.Valid) :
    (∃ b, (ExtractAppState P (FormatAppState P R) st).result = .ok b) ∧
    (ExtractAppState P (FormatAppState P R) st).app_state.n_iterations = R.n_iterations ∧
    (ExtractAppState P (FormatAppState P R) st).app_state.app_id = R.app_id ∧
    (ExtractAppState P (FormatAppState P R) st).app_state.current_dataset =
      R.current_dataset ∧
    (ExtractAppState P (FormatAppState P R) st).app_state.current_model = R.current_model ∧
    (ExtractAppState P (FormatAppState P R) st).app_state.current_nn_mode =
      R.current_nn_mode ∧
    (ExtractAppState P (FormatAppState P R) st).app_state.current_expl_mode =
      R.current_expl_mode := by
  have hu := ULONG_MAX_ge P
  have hc := encodeChecksum_lt P R
  obtain ⟨v0, _, _, v3, v4, v5, v6, v7⟩ := hR
  have h0 := stoul_to_string_unsigned P R.n_iterations (by omega)
  obtain ⟨y1, h1⟩ := stof_to_string_float P R.last_error
  obtain ⟨y2, h2⟩ := stof_to_string_float P R.exploration_range
  have h3 := stoi_to_string_int R.app_id v3.1 v3.2
  have h4 := stoi_to_string_int (R.current_dataset : Int) (by omega) (by omega)
  have h5 := stoi_to_string_int (R.current_model : Int) (by omega) (by omega)
  have h6 := stoi_to_string_int R.current_nn_mode v6.1 v6.2
  have h7 := stoi_to_string_int R.current_expl_mode v7.1 v7.2
  have h8 := stoul_to_string_unsigned P (encodeChecksum P R) (by omega)
  unfold ExtractAppState
  rw [SplitMessage_FormatAppState]
  unfold encodeValues
  rw [ExtractAppStateFields_of_parsed P _ _ _ _ _ _ _ _ _ st _ _ _ _ _ _ _ _ _
    h0 h1 h2 h3 h4 h5 h6 h7 h8]
  refine ⟨⟨_, rfl⟩, ?_, rfl, ?_, ?_, rfl, rfl⟩
  · exact Nat.mod_eq_of_lt v0
  · simp only [parsedRecord, intToU8]
    omega
  · simp only [parsedRecord, intToU8]
    omega

set_option maxRecDepth 10000 in
/-- C17 (witness): a record whose `last_error` is a NaN (`0x7fc00000`) and whose
`exploration_range` is `-1.5` (`0xbfc00000`): the call returns and the integer fields are those
of the record. -/
theorem C17_integer_fields_round_trip_witness :
    (⟨1000, ⟨0x7fc00000⟩, ⟨0xbfc00000⟩, 2, 2, 1, 1, 1⟩ : ts_app_state).Valid ∧
    (∃ b, (ExtractAppState ilp32
      (FormatAppState ilp32 ⟨1000, ⟨0x7fc00000⟩, ⟨0xbfc00000⟩, 2, 2, 1, 1, 1⟩)
      zero_app_state).result = .ok b) :=
  ⟨by decide,
   (C17_integer_fields_round_trip ilp32 ⟨1000, ⟨0x7fc00000⟩, ⟨0xbfc00000⟩, 2, 2, 1, 1, 1⟩
      zero_app_state (by decide)).1⟩

end UART_Common
